import Mathlib

/-
Verification development for the BDLS consensus core (package `bdls`).

The repository ships the package's test files; the consensus implementation
itself (message validation, round book, stage machine) is described by the
specification.  The definitions below are therefore modelled from the spec
(sections 3-7), with each modelled definition carrying a doc comment naming
the missing source function; the package's tests pin the observable
behaviour (error codes, orderings, counts) that the model reproduces.

Modelling conventions:
- byte strings (`State`) are lists of naturals; the Go `nil`/empty state is `[]`;
- ECDSA signature verification is abstracted by a boolean validity flag on the
  envelope, and `PubKeyToIdentity` by carrying the signer identity directly;
- the 32-byte cryptographic state hash is modelled by an injective function on
  states (the identity embedding), which preserves all equality comparisons
  the engine performs;
- wall-clock times and durations are naturals; the zero value plays the role
  of Go's `time.Time{}` ("timer not armed").
-/

set_option maxHeartbeats 1000000

namespace BDLS

/-- Identity: the canonical short identifier derived from a participant's
public key (spec section 3).  Modelled as a natural number. -/
abbrev Identity := Nat

/-- State: opaque byte string agreed upon by the quorum (spec section 3).
The null/empty Go state is the empty list. -/
abbrev State := List Nat

/-- Modelled from the spec: the closed taxonomy of the six message kinds
(spec section 3, `Message.Type`). -/
inductive MessageType where
  | roundChange
  | lock
  | select
  | lockRelease
  | commit
  | decide
deriving DecidableEq

mutual
/-- Modelled from the spec: the inner `Message` (spec section 3) with fields
`Type`, `Height`, `Round`, `State`, `Proof` (a sequence of signed envelopes)
and the `LockRelease` envelope used by `<lock-release>` messages. -/
inductive Message : Type where
  | mk (mtype : MessageType) (height : Nat) (round : Nat) (state : State)
       (proof : List SignedProto) (lockRelease : Option SignedProto) : Message

/-- Modelled from the spec: the outer `SignedProto` envelope (spec section 3).
`version` models the `Version` field; `message` is the decoded inner message
(the codec is bit-exact, so bytes and decoded messages are identified);
`signer` is the identity derived from the `X, Y` public key coordinates; and
`sigValid` abstracts whether the ECDSA signature `(R, S)` verifies against
the envelope hash. -/
inductive SignedProto : Type where
  | mk (version : Nat) (message : Message) (signer : Identity) (sigValid : Bool) : SignedProto
end

def Message.mtype : Message → MessageType
  | .mk t _ _ _ _ _ => t

def Message.height : Message → Nat
  | .mk _ h _ _ _ _ => h

def Message.round : Message → Nat
  | .mk _ _ r _ _ _ => r

def Message.state : Message → State
  | .mk _ _ _ s _ _ => s

def Message.proof : Message → List SignedProto
  | .mk _ _ _ _ p _ => p

def Message.lockRelease : Message → Option SignedProto
  | .mk _ _ _ _ _ lr => lr

def SignedProto.version : SignedProto → Nat
  | .mk v _ _ _ => v

def SignedProto.message : SignedProto → Message
  | .mk _ m _ _ => m

def SignedProto.signer : SignedProto → Identity
  | .mk _ _ s _ => s

def SignedProto.sigValid : SignedProto → Bool
  | .mk _ _ _ b => b

/-- Modelled from the spec: the closed error taxonomy (spec section 7). -/
inductive VError where
  | errMessageIsEmpty
  | errMessageVersion
  | errMessageSignature
  | errMessageUnknownMessageType
  | errMessageUnknownParticipant
  | errRoundChangeHeightMismatch
  | errRoundChangeRoundLower
  | errLockNotSignedByLeader
  | errLockHeightMismatch
  | errLockRoundLower
  | errLockEmptyState
  | errLockProofTypeMismatch
  | errLockProofHeightMismatch
  | errLockProofRoundMismatch
  | errLockProofUnknownParticipant
  | errLockProofInsufficient
  | errSelectNotSignedByLeader
  | errSelectHeightMismatch
  | errSelectRoundLower
  | errSelectProofTypeMismatch
  | errSelectProofHeightMismatch
  | errSelectProofRoundMismatch
  | errSelectProofUnknownParticipant
  | errSelectProofInsufficient
  | errSelectProofNotTheMaximal
  | errSelectStateMismatch
  | errSelectProofExceeded
  | errLockReleaseStatus
  | errCommitStatus
  | errCommitHeightMismatch
  | errCommitRoundMismatch
  | errCommitEmptyState
  | errCommitStateMismatch
  | errDecideNotSignedByLeader
  | errDecideHeightLower
  | errDecideEmptyState
  | errDecideProofTypeMismatch
  | errDecideProofHeightMismatch
  | errDecideProofRoundMismatch
  | errDecideProofUnknownParticipant
  | errDecideProofInsufficient
deriving DecidableEq

/-- Modelled from the spec: the four stages of a round (spec section 3). -/
inductive Stage where
  | roundChanging
  | lock
  | commit
  | lockRelease
deriving DecidableEq

/-- Modelled from the spec: the per-round container `consensusRound`
(spec section 3) holding the round number, the per-signer deduplicated
`roundChanges` and `commits` maps (association lists keyed by signer
identity), and the cached locked state with its hash. -/
structure ConsensusRound where
  roundNumber : Nat
  roundChanges : List (Identity × Message)
  commits : List (Identity × Message)
  lockedState : State
  lockedStateHash : State

/-- Freshly created (lazy) round container for a round number. -/
def emptyRound (r : Nat) : ConsensusRound :=
  { roundNumber := r, roundChanges := [], commits := [], lockedState := [], lockedStateHash := [] }

/-- Modelled from the spec: the top-level `Consensus` object (spec section 3):
identity, ordered participants, configured leader override (testing), current
(height, round, stage), absolute timer deadlines, the round book, the locks
set, the latency estimate and the last decision certificate. -/
structure Consensus where
  participants : List Identity
  myIdentity : Identity
  fixedLeader : Option Identity
  stateCompare : State → State → Int
  stateValidate : State → Bool
  currentHeight : Nat
  currentRound : Nat
  stage : Stage
  rounds : List ConsensusRound
  locks : List (Message × SignedProto)
  latency : Nat
  lockTimeout : Nat
  commitTimeout : Nat
  lockReleaseTimeout : Nat
  roundChangeTimeout : Nat
  decideState : State
  decideMessage : Option SignedProto

/-- Modelled from the spec: the canonical hash-of-state function (spec
section 4.1).  The 32-byte cryptographic digest is abstracted by an injective
function on states; the identity embedding suffices since the engine only
ever compares hashes for equality. -/
def stateHash (s : State) : State := s

/-- Quorum threshold `q = 2 * floor((n - 1) / 3) + 1` (spec section 4.4). -/
def Consensus.quorum (c : Consensus) : Nat :=
  2 * ((c.participants.length - 1) / 3) + 1

/-- Modelled from the spec: leader for `(height, round)` is
`participants[(height + round) mod n]` unless the testing override is set
(spec section 4.6). -/
def Consensus.leaderFor (c : Consensus) (h r : Nat) : Option Identity :=
  match c.fixedLeader with
  | some l => some l
  | none => c.participants.get? ((h + r) % c.participants.length)

/-- Whether this node is the leader for its current `(height, round)`. -/
def Consensus.isLeaderSelf (c : Consensus) : Bool :=
  c.leaderFor c.currentHeight c.currentRound == some c.myIdentity

/-- Modelled from the spec: envelope verification steps 2-4 of
`verifyMessage` (spec section 4.3): version check, signature check,
participant membership check, each with its distinct error. -/
def envVerdict (c : Consensus) (p : SignedProto) : Option VError :=
  if p.version ≠ 1 then some .errMessageVersion
  else if p.sigValid = false then some .errMessageSignature
  else if p.signer ∉ c.participants then some .errMessageUnknownParticipant
  else none

/-- Modelled from the spec: `verifyMessage` (spec section 4.3).  A null
envelope yields `MessageIsEmpty`; otherwise the envelope checks run and the
decoded inner message and signer identity are returned.  (The unknown
message type check of step 5 is unrepresentable here: the model's closed
`MessageType` only holds the six known kinds.) -/
def Consensus.verifyMessage (c : Consensus) :
    Option SignedProto → Except VError (Message × Identity)
  | none => .error .errMessageIsEmpty
  | some p =>
    match envVerdict c p with
    | some e => .error e
    | none => .ok (p.message, p.signer)

/-- Error codes used by the shared proof-checking loop; each proof family
(`Lock`, `Select`, `Decide`) remaps the per-proof faults to its own codes
(spec sections 4.4 and 7). -/
structure ProofErrs where
  typeErr : VError
  heightErr : VError
  roundErr : VError
  unknownErr : VError

def lockProofErrs : ProofErrs :=
  { typeErr := .errLockProofTypeMismatch, heightErr := .errLockProofHeightMismatch,
    roundErr := .errLockProofRoundMismatch, unknownErr := .errLockProofUnknownParticipant }

def selectProofErrs : ProofErrs :=
  { typeErr := .errSelectProofTypeMismatch, heightErr := .errSelectProofHeightMismatch,
    roundErr := .errSelectProofRoundMismatch, unknownErr := .errSelectProofUnknownParticipant }

def decideProofErrs : ProofErrs :=
  { typeErr := .errDecideProofTypeMismatch, heightErr := .errDecideProofHeightMismatch,
    roundErr := .errDecideProofRoundMismatch, unknownErr := .errDecideProofUnknownParticipant }

/-- Modelled from the spec: the proof-validation loop shared by `<lock>`,
`<select>` and `<decide>` validation (spec section 4.4).  Each enclosed proof
must be envelope-valid (an unknown-participant fault is remapped to the
family's code, other envelope faults propagate unchanged, as the tests pin
with `ErrMessageSignature`), of the expected inner type, and carry the
enclosing message's height and round. -/
def checkProofs (c : Consensus) (es : ProofErrs) (tp : MessageType) (h r : Nat) :
    List SignedProto → Option VError
  | [] => none
  | p :: ps =>
    match envVerdict c p with
    | some e => some (if e = .errMessageUnknownParticipant then es.unknownErr else e)
    | none =>
      if p.message.mtype ≠ tp then some es.typeErr
      else if p.message.height ≠ h then some es.heightErr
      else if p.message.round ≠ r then some es.roundErr
      else checkProofs c es tp h r ps

/-- Association-list update with Go map semantics: replace the value under an
existing key, append a fresh key at the end. -/
def upsert (k : Identity) (v : Message) : List (Identity × Message) → List (Identity × Message)
  | [] => [(k, v)]
  | e :: t => if e.1 = k then (k, v) :: t else e :: upsert k v t

/-- Association-list insert-if-absent (spec section 9: `<commit>` entries are
insert-if-absent per signer). -/
def insertIfAbsent (k : Identity) (v : Message) :
    List (Identity × Message) → List (Identity × Message)
  | [] => [(k, v)]
  | e :: t => if e.1 = k then e :: t else e :: insertIfAbsent k v t

/-- Modelled from the spec: the per-signer evidence map built while walking a
proof list (the Go `map[Identity]State` with last-write-wins assignment);
keys are distinct signers. -/
def collectStates (ps : List SignedProto) : List (Identity × Message) :=
  ps.foldl (fun acc p => upsert p.signer p.message acc) []

/-- Number of distinct signers in an evidence map supporting a given state. -/
def countState (tbl : List (Identity × Message)) (s : State) : Nat :=
  (tbl.filter (fun e => e.2.state = s)).length

/-- Modelled from the spec: the maximal non-null state among the collected
distinct-signer proofs, under the injected state comparator (spec
section 4.4, `<select>`). -/
def maximalState (c : Consensus) : List (Identity × Message) → Option State
  | [] => none
  | (_, m) :: t =>
    match maximalState c t with
    | none => if m.state = [] then none else some m.state
    | some mx =>
      if m.state = [] then some mx
      else if 0 < c.stateCompare m.state mx then some m.state else some mx

/-- First round container with the given number, or a fresh empty one. -/
def findRound (rs : List ConsensusRound) (r : Nat) : ConsensusRound :=
  match rs.find? (fun cr => cr.roundNumber = r) with
  | some cr => cr
  | none => emptyRound r

/-- Modelled from the spec: in-place modification of the round book at a
round number, creating the container lazily in its ordered position
(spec section 3: the book is strictly ordered by `RoundNumber`, entries are
created lazily on first use). -/
def setRound (rs : List ConsensusRound) (r : Nat) (f : ConsensusRound → ConsensusRound) :
    List ConsensusRound :=
  match rs with
  | [] => [f (emptyRound r)]
  | cr :: t =>
    if r = cr.roundNumber then f cr :: t
    else if r < cr.roundNumber then f (emptyRound r) :: cr :: t
    else cr :: setRound t r f

/-- Modelled from the spec: `getRound` — round-container lookup that creates
the container lazily while keeping the book strictly ordered by round
number. -/
def getRound (rs : List ConsensusRound) (r : Nat) : List ConsensusRound :=
  setRound rs r (fun cr => cr)

/-- The container of the engine's current round. -/
def Consensus.curRound (c : Consensus) : ConsensusRound :=
  findRound c.rounds c.currentRound

/-- Modelled from the spec: `<roundchange>` validation (spec section 4.4):
`msg.Height == H+1` else `RoundChangeHeightMismatch`, `msg.Round ≥ R` else
`RoundChangeRoundLower`. -/
def Consensus.verifyRoundChangeMessage (c : Consensus) (m : Message) : Option VError :=
  if m.height ≠ c.currentHeight + 1 then some .errRoundChangeHeightMismatch
  else if m.round < c.currentRound then some .errRoundChangeRoundLower
  else none

/-- Modelled from the spec: `<lock>` validation (spec section 4.4): signed by
the current leader, `msg.Height == H+1`, `msg.Round ≥ R`, `msg.State`
non-empty and valid under the state predicate, every proof an envelope-valid
`<roundchange>` for the same height and round from a known participant, and
at least `q` distinct-signer proofs carrying `msg.State`. -/
def Consensus.verifyLockMessage (c : Consensus) (m : Message) (sp : SignedProto) :
    Option VError :=
  if c.leaderFor c.currentHeight c.currentRound ≠ some sp.signer then
    some .errLockNotSignedByLeader
  else if m.height ≠ c.currentHeight + 1 then some .errLockHeightMismatch
  else if m.round < c.currentRound then some .errLockRoundLower
  else if m.state = [] ∨ c.stateValidate m.state = false then some .errLockEmptyState
  else
    match checkProofs c lockProofErrs .roundChange m.height m.round m.proof with
    | some e => some e
    | none =>
      if countState (collectStates m.proof) m.state < c.quorum then
        some .errLockProofInsufficient
      else none

/-- Modelled from the spec: `<select>` validation (spec section 4.4): same
leader/height/round and per-proof rules as `<lock>` with `Select` error
codes; at least `q` distinct-signer proofs; `msg.State` must be the maximal
proof state under the comparator (`SelectProofNotTheMaximal`); a null
`msg.State` with non-null proof states is `SelectStateMismatch` (and a
non-null `msg.State` over all-null proofs likewise); and when `msg.State`
already has `q` distinct supporters, further proofs carrying other states
are rejected with `SelectProofExceeded`. -/
def Consensus.verifySelectMessage (c : Consensus) (m : Message) (sp : SignedProto) :
    Option VError :=
  if c.leaderFor c.currentHeight c.currentRound ≠ some sp.signer then
    some .errSelectNotSignedByLeader
  else if m.height ≠ c.currentHeight + 1 then some .errSelectHeightMismatch
  else if m.round < c.currentRound then some .errSelectRoundLower
  else
    match checkProofs c selectProofErrs .roundChange m.height m.round m.proof with
    | some e => some e
    | none =>
      let tbl := collectStates m.proof
      if tbl.length < c.quorum then some .errSelectProofInsufficient
      else
        match maximalState c tbl with
        | none => if m.state ≠ [] then some .errSelectStateMismatch else none
        | some mx =>
          if m.state = [] then some .errSelectStateMismatch
          else if c.stateCompare m.state mx ≠ 0 then some .errSelectProofNotTheMaximal
          else if c.quorum ≤ countState tbl m.state ∧ countState tbl m.state < tbl.length then
            some .errSelectProofExceeded
          else none

/-- Modelled from the spec: `<commit>` validation (spec section 4.4): current
stage is `Commit`, `msg.Height == H+1`, `msg.Round == R`, `msg.State`
non-empty, and `Hash(msg.State)` equals the current round's
`LockedStateHash`. -/
def Consensus.verifyCommitMessage (c : Consensus) (m : Message) : Option VError :=
  if c.stage ≠ .commit then some .errCommitStatus
  else if m.height ≠ c.currentHeight + 1 then some .errCommitHeightMismatch
  else if m.round ≠ c.currentRound then some .errCommitRoundMismatch
  else if m.state = [] then some .errCommitEmptyState
  else if stateHash m.state ≠ c.curRound.lockedStateHash then some .errCommitStateMismatch
  else none

/-- Modelled from the spec: `<decide>` validation (spec section 4.4): signed
by the leader for `(msg.Height - 1, msg.Round)`, `msg.Height > H` else
`DecideHeightLower`, `msg.State` non-empty, every proof an envelope-valid
`<commit>` for the message's height and round from a known participant, and
at least `q` distinct-signer commits carrying `msg.State`. -/
def Consensus.verifyDecideMessage (c : Consensus) (m : Message) (sp : SignedProto) :
    Option VError :=
  if c.leaderFor (m.height - 1) m.round ≠ some sp.signer then
    some .errDecideNotSignedByLeader
  else if m.height ≤ c.currentHeight then some .errDecideHeightLower
  else if m.state = [] then some .errDecideEmptyState
  else
    match checkProofs c decideProofErrs .commit m.height m.round m.proof with
    | some e => some e
    | none =>
      if countState (collectStates m.proof) m.state < c.quorum then
        some .errDecideProofInsufficient
      else none

/-- Modelled from the spec: `<lock-release>` validation (spec section 4.4):
the current stage must be `LockRelease`; the inner `LockRelease` field is a
signed `<lock>` envelope that is validated like a `<lock>`. -/
def Consensus.verifyLockReleaseMessage (c : Consensus) (m : Message) : Option VError :=
  if c.stage ≠ .lockRelease then some .errLockReleaseStatus
  else
    match m.lockRelease with
    | none => some .errMessageIsEmpty
    | some lsp =>
      match envVerdict c lsp with
      | some e => some e
      | none =>
        if lsp.message.mtype ≠ .lock then some .errMessageUnknownMessageType
        else c.verifyLockMessage lsp.message lsp

/-- Modelled from the spec: `ValidateDecideMessage` (spec sections 4.4 and 6):
standalone verification of an encoded `<decide>` for external consumers; it
runs envelope verification and the `<decide>` validation without installing
anything.  (The caller's expected state is not part of the spec's error
taxonomy and so does not enter the verdict.) -/
def Consensus.ValidateDecideMessage (c : Consensus) (bts : Option SignedProto)
    (_targetState : State) : Option VError :=
  match bts with
  | none => some .errMessageIsEmpty
  | some sp =>
    match envVerdict c sp with
    | some e => some e
    | none =>
      if sp.message.mtype ≠ .decide then some .errMessageUnknownMessageType
      else c.verifyDecideMessage sp.message sp

/-- Highest round number at which a signer currently has a retained
`<roundchange>` in the round book, if any. -/
def bookHighestRC (rs : List ConsensusRound) (p : Identity) : Option Nat :=
  rs.foldr
    (fun cr acc =>
      if cr.roundChanges.any (fun e => e.1 = p) then
        match acc with
        | none => some cr.roundNumber
        | some m => some (max cr.roundNumber m)
      else acc)
    none

/-- All `<roundchange>` messages from a signer retained anywhere in the book. -/
def rcRetained (rs : List ConsensusRound) (p : Identity) : List Message :=
  rs.flatMap (fun cr => (cr.roundChanges.filter (fun e => e.1 = p)).map (fun e => e.2))

/-- Drop every retained `<roundchange>` of a signer from the whole book. -/
def removeRC (rs : List ConsensusRound) (p : Identity) : List ConsensusRound :=
  rs.map (fun cr => { cr with roundChanges := cr.roundChanges.filter (fun e => ¬(e.1 = p)) })

/-- Store a `<roundchange>` from a signer in the container of its round. -/
def rcIns (rs : List ConsensusRound) (r : Nat) (p : Identity) (m : Message) :
    List ConsensusRound :=
  setRound rs r (fun cr => { cr with roundChanges := upsert p m cr.roundChanges })

/-- Modelled from the spec: switching the current round upward after `q`
`<roundchange>` are observed for it, entering `Lock` stage and arming
`lockTimeout = 2 * latency` (spec section 4.5); carried locks are retained. -/
def switchToLock (c : Consensus) (r : Nat) (now : Nat) : Consensus :=
  { c with currentRound := r, stage := .lock, lockTimeout := now + 2 * c.latency }

/-- Modelled from the spec: storing a verified `<roundchange>` (spec
sections 4.4, 4.5 and 9): after the insertion, if the message's round has
gathered `q` distinct-signer `<roundchange>` and that round is either
strictly above the current one or is the current one still in
`RoundChanging` stage, the engine moves to that round's `Lock` stage and
arms `lockTimeout`. -/
def insertAndReact (c : Consensus) (m : Message) (p : Identity) (now : Nat) : Consensus :=
  let rounds' := rcIns c.rounds m.round p m
  let cnt := (findRound rounds' m.round).roundChanges.length
  let c' := { c with rounds := rounds' }
  if c.quorum ≤ cnt ∧
      (c.currentRound < m.round ∨ (m.round = c.currentRound ∧ c.stage = .roundChanging)) then
    switchToLock c' m.round now
  else c'

/-- Modelled from the spec: per-signer `<roundchange>` deduplication (spec
sections 4.4 and 5): only the highest-round `<roundchange>` observed from a
signer is kept; a message at or below the signer's retained round is
discarded, a higher one replaces all of the signer's previous entries. -/
def receiveRoundChange (c : Consensus) (m : Message) (p : Identity) (now : Nat) : Consensus :=
  match bookHighestRC c.rounds p with
  | some r' => if m.round ≤ r' then c else insertAndReact { c with rounds := removeRC c.rounds p } m p now
  | none => insertAndReact c m p now

/-- Modelled from the spec: accepting a valid `<lock>` (spec sections 4.5 and
4.8): the engine switches to the message's round when it is strictly higher,
carries the lock into the locks set unless one with an equal state (under
the comparator) is already held, caches the locked state and its hash in the
round container, enters `Commit` stage and arms `commitTimeout`. -/
def acceptLock (c : Consensus) (m : Message) (sp : SignedProto) (now : Nat) : Consensus :=
  let c1 := if c.currentRound < m.round then { c with currentRound := m.round } else c
  let locks' :=
    if c1.locks.any (fun l => c1.stateCompare l.1.state m.state = 0) then c1.locks
    else c1.locks ++ [(m, sp)]
  let rounds' :=
    setRound c1.rounds m.round
      (fun cr => { cr with lockedState := m.state, lockedStateHash := stateHash m.state })
  { c1 with locks := locks', rounds := rounds', stage := .commit,
            commitTimeout := now + 4 * c1.latency }

/-- Modelled from the spec: accepting a valid `<select>` (spec section 4.5):
the non-leader enters `Commit` for the message's round, caching the selected
state when it is non-null, and arms `commitTimeout`. -/
def acceptSelect (c : Consensus) (m : Message) (now : Nat) : Consensus :=
  let c1 := if c.currentRound < m.round then { c with currentRound := m.round } else c
  let rounds' :=
    setRound c1.rounds m.round
      (fun cr => { cr with lockedState := m.state, lockedStateHash := stateHash m.state })
  { c1 with rounds := rounds', stage := .commit, commitTimeout := now + 4 * c1.latency }

/-- Modelled from the spec: accepting a valid `<lock-release>` (spec
section 4.8): the enclosed `<lock>`'s round authorises discarding the held
locks for rounds at or below it, so a new lock can be accepted at a higher
round. -/
def acceptLockRelease (c : Consensus) (m : Message) : Consensus :=
  match m.lockRelease with
  | none => c
  | some lsp =>
    let r' := lsp.message.round
    let c1 := if c.currentRound < r' then { c with currentRound := r' } else c
    { c1 with locks := c1.locks.filter (fun l => r' < l.1.round) }

/-- Modelled from the spec: installing a decision (spec sections 4.4 and
4.5): height advances to the decided height, the round resets to `0`, the
stage resets to `RoundChanging`, the book, locks and timers are cleared, and
the decision certificate becomes observable through `CurrentState`. -/
def installDecide (c : Consensus) (m : Message) (sp : Option SignedProto) : Consensus :=
  { c with currentHeight := m.height, currentRound := 0, stage := .roundChanging,
           rounds := [], locks := [], lockTimeout := 0, commitTimeout := 0,
           lockReleaseTimeout := 0, decideState := m.state, decideMessage := sp }

/-- The round book after storing a verified `<commit>` (insert-if-absent per
signer, spec section 9). -/
def commitBook (c : Consensus) (m : Message) (p : Identity) : List ConsensusRound :=
  setRound c.rounds m.round (fun cr => { cr with commits := insertIfAbsent p m cr.commits })

/-- Modelled from the spec: storing a verified `<commit>` (spec sections 4.5
and 9): insert-if-absent into the round's per-signer commits map; once `q`
distinct signers have committed, the height is decided (with the commit's
state) exactly as for an accepted `<decide>`. -/
def acceptCommit (c : Consensus) (m : Message) (p : Identity) : Consensus :=
  let rounds' := commitBook c m p
  let c1 := { c with rounds := rounds' }
  if c.quorum ≤ (findRound rounds' m.round).commits.length then
    installDecide c1 m none
  else c1

/-- Modelled from the spec: `ReceiveMessage` (spec sections 2, 4.3, 4.4 and
6): decode, verify the envelope, dispatch on the inner type, validate
against the current state, and only on success mutate the engine; every
validation error is returned to the caller with the engine untouched
(spec section 7, Policy). -/
def ReceiveMessage (c : Consensus) (bts : Option SignedProto) (now : Nat) :
    Consensus × Option VError :=
  match bts with
  | none => (c, some .errMessageIsEmpty)
  | some sp =>
    match envVerdict c sp with
    | some e => (c, some e)
    | none =>
      let m := sp.message
      match m.mtype with
      | .roundChange =>
        match c.verifyRoundChangeMessage m with
        | some e => (c, some e)
        | none => (receiveRoundChange c m sp.signer now, none)
      | .lock =>
        match c.verifyLockMessage m sp with
        | some e => (c, some e)
        | none => (acceptLock c m sp now, none)
      | .select =>
        match c.verifySelectMessage m sp with
        | some e => (c, some e)
        | none => (acceptSelect c m now, none)
      | .lockRelease =>
        match c.verifyLockReleaseMessage m with
        | some e => (c, some e)
        | none => (acceptLockRelease c m, none)
      | .commit =>
        match c.verifyCommitMessage m with
        | some e => (c, some e)
        | none => (acceptCommit c m sp.signer, none)
      | .decide =>
        match c.verifyDecideMessage m sp with
        | some e => (c, some e)
        | none => (installDecide c m (some sp), none)

/-- Modelled from the spec: `Update(now)` (spec sections 4.5 and 6 and test
scenario S8): the stage clock reads the armed absolute deadlines and fires
the transitions whose deadlines have passed.  On an expired `lockTimeout`
the leader proposes and — its commit window deriving from the same latency
estimate — lands in `LockRelease` directly, while a non-leader enters
`Commit` arming `commitTimeout`; an expired `commitTimeout` moves to
`LockRelease` arming `lockReleaseTimeout`; an expired `lockReleaseTimeout`
returns to `RoundChanging` at the next round.  (The round-change back-off
of `RoundChanging` stage is not modelled.) -/
def Update (c : Consensus) (now : Nat) : Consensus :=
  match c.stage with
  | .roundChanging => c
  | .lock =>
    if c.lockTimeout ≠ 0 ∧ c.lockTimeout < now then
      if c.isLeaderSelf then
        { c with stage := .lockRelease, lockTimeout := 0,
                 lockReleaseTimeout := now + 2 * c.latency }
      else
        { c with stage := .commit, lockTimeout := 0, commitTimeout := now + 4 * c.latency }
    else c
  | .commit =>
    if c.commitTimeout ≠ 0 ∧ c.commitTimeout < now then
      { c with stage := .lockRelease, commitTimeout := 0,
               lockReleaseTimeout := now + 2 * c.latency }
    else c
  | .lockRelease =>
    if c.lockReleaseTimeout ≠ 0 ∧ c.lockReleaseTimeout < now then
      { c with stage := .roundChanging, lockReleaseTimeout := 0,
               currentRound := c.currentRound + 1 }
    else c

/-- Deliver a list of envelopes through `ReceiveMessage`, discarding the
per-message verdicts (as the flood tests do). -/
def deliverAll (c : Consensus) (sps : List SignedProto) (now : Nat) : Consensus :=
  sps.foldl (fun acc sp => (ReceiveMessage acc (some sp) now).1) c

/-- Deliver the same envelope a number of times, recording whether every
call succeeded. -/
def receiveRepeat (sp : SignedProto) (now : Nat) : Nat → Consensus → Consensus × Bool
  | 0, c => (c, true)
  | n + 1, c =>
    let step := ReceiveMessage c (some sp) now
    let rest := receiveRepeat sp now n step.1
    (rest.1, rest.2 && step.2.isNone)

/-! Basic facts about the envelope checks and the shared proof loop. -/

/-- Well-formedness of one enclosed proof relative to the enclosing message:
envelope-valid (version, signature, known participant), expected inner type,
and matching height and round. -/
@[reducible] def ProofWF (c : Consensus) (tp : MessageType) (h r : Nat) (p : SignedProto) : Prop :=
  p.version = 1 ∧ p.sigValid = true ∧ p.signer ∈ c.participants ∧
  p.message.mtype = tp ∧ p.message.height = h ∧ p.message.round = r

theorem envVerdict_eq_none (c : Consensus) (p : SignedProto) :
    envVerdict c p = none ↔ (p.version = 1 ∧ p.sigValid = true ∧ p.signer ∈ c.participants) := by
  unfold envVerdict
  split_ifs with h1 h2 h3
  all_goals simp_all

theorem checkProofs_eq_none (c : Consensus) (es : ProofErrs) (tp : MessageType) (h r : Nat)
    (ps : List SignedProto) :
    checkProofs c es tp h r ps = none ↔ ∀ p ∈ ps, ProofWF c tp h r p := by
  induction ps with
  | nil => simp [checkProofs]
  | cons q qs ih =>
    rcases hev : envVerdict c q with _ | e
    · have henv := (envVerdict_eq_none c q).mp hev
      by_cases h1 : q.message.mtype = tp
      · by_cases h2 : q.message.height = h
        · by_cases h3 : q.message.round = r
          · have hq : ProofWF c tp h r q := ⟨henv.1, henv.2.1, henv.2.2, h1, h2, h3⟩
            have hstep : checkProofs c es tp h r (q :: qs) = checkProofs c es tp h r qs := by
              simp [checkProofs, hev, h1, h2, h3]
            rw [hstep, ih, List.forall_mem_cons]
            exact ⟨fun hall => ⟨hq, hall⟩, fun hall => hall.2⟩
          · refine iff_of_false (by simp [checkProofs, hev, h1, h2, h3]) ?_
            intro hall
            exact h3 (hall q (by simp)).2.2.2.2.2
        · refine iff_of_false (by simp [checkProofs, hev, h1, h2]) ?_
          intro hall
          exact h2 (hall q (by simp)).2.2.2.2.1
      · refine iff_of_false (by simp [checkProofs, hev, h1]) ?_
        intro hall
        exact h1 (hall q (by simp)).2.2.2.1
    · refine iff_of_false (by simp [checkProofs, hev]) ?_
      intro hall
      rcases hall q (by simp) with ⟨hv, hs, hm, _⟩
      have h0 : envVerdict c q = none := (envVerdict_eq_none c q).mpr ⟨hv, hs, hm⟩
      rw [h0] at hev
      exact Option.noConfusion hev

theorem checkProofs_append (c : Consensus) (es : ProofErrs) (tp : MessageType) (h r : Nat)
    (ps1 ps2 : List SignedProto) (hwf : ∀ p ∈ ps1, ProofWF c tp h r p) :
    checkProofs c es tp h r (ps1 ++ ps2) = checkProofs c es tp h r ps2 := by
  induction ps1 with
  | nil => rfl
  | cons q qs ih =>
    have hq := hwf q (by simp)
    have henv : envVerdict c q = none :=
      (envVerdict_eq_none c q).mpr ⟨hq.1, hq.2.1, hq.2.2.1⟩
    simp [checkProofs, henv, hq.2.2.2.1, hq.2.2.2.2.1, hq.2.2.2.2.2,
          ih (fun p hp => hwf p (by simp [hp]))]

/-! Facts showing that the evidence map built by `collectStates` really
counts distinct signers backed by actual proofs of the list. -/

theorem upsert_keys_of_mem {k : Identity} (v : Message) {l : List (Identity × Message)}
    (h : k ∈ l.map Prod.fst) : (upsert k v l).map Prod.fst = l.map Prod.fst := by
  induction l with
  | nil => simp at h
  | cons a t ih =>
    by_cases hk : a.1 = k
    · simp [upsert, hk]
    · have ht : k ∈ t.map Prod.fst := by
        simp only [List.map_cons, List.mem_cons] at h
        rcases h with h' | h'
        · exact absurd h'.symm hk
        · exact h'
      simp [upsert, hk, ih ht]

theorem upsert_keys_of_not_mem {k : Identity} (v : Message) {l : List (Identity × Message)}
    (h : k ∉ l.map Prod.fst) : (upsert k v l).map Prod.fst = l.map Prod.fst ++ [k] := by
  induction l with
  | nil => simp [upsert]
  | cons a t ih =>
    have hk : ¬(a.1 = k) := fun he => h (by simp [he])
    have ht : k ∉ t.map Prod.fst := fun he => h (by simp [he])
    simp [upsert, hk, ih ht]

theorem mem_upsert {e : Identity × Message} {k : Identity} {v : Message}
    {l : List (Identity × Message)} (h : e ∈ upsert k v l) : e = (k, v) ∨ e ∈ l := by
  induction l with
  | nil => simpa [upsert] using h
  | cons a t ih =>
    by_cases hk : a.1 = k
    · rw [upsert, if_pos hk] at h
      rcases List.mem_cons.mp h with h' | h'
      · exact Or.inl h'
      · exact Or.inr (List.mem_cons_of_mem _ h')
    · rw [upsert, if_neg hk] at h
      rcases List.mem_cons.mp h with h' | h'
      · exact Or.inr (by simp [h'])
      · rcases ih h' with h'' | h''
        · exact Or.inl h''
        · exact Or.inr (List.mem_cons_of_mem _ h'')

theorem mem_collectStates_aux {e : Identity × Message} (ps : List SignedProto)
    (acc : List (Identity × Message))
    (h : e ∈ ps.foldl (fun acc p => upsert p.signer p.message acc) acc) :
    (∃ p ∈ ps, p.signer = e.1 ∧ p.message = e.2) ∨ e ∈ acc := by
  induction ps generalizing acc with
  | nil => exact Or.inr (by simpa using h)
  | cons q qs ih =>
    simp only [List.foldl_cons] at h
    rcases ih _ h with ⟨p, hp, hsig, hmsg⟩ | hmem
    · exact Or.inl ⟨p, by simp [hp], hsig, hmsg⟩
    · rcases mem_upsert hmem with he | he
      · exact Or.inl ⟨q, by simp, by simp [he], by simp [he]⟩
      · exact Or.inr he

/-- Every entry of the evidence map is backed by an actual proof of the list
with that signer and inner message. -/
theorem mem_collectStates {e : Identity × Message} {ps : List SignedProto}
    (h : e ∈ collectStates ps) : ∃ p ∈ ps, p.signer = e.1 ∧ p.message = e.2 := by
  rcases mem_collectStates_aux ps [] h with h' | h'
  · exact h'
  · cases h'

theorem collectStates_keys_nodup_aux (ps : List SignedProto)
    (acc : List (Identity × Message)) (hacc : (acc.map Prod.fst).Nodup) :
    ((ps.foldl (fun acc p => upsert p.signer p.message acc) acc).map Prod.fst).Nodup := by
  induction ps generalizing acc with
  | nil => simpa using hacc
  | cons q qs ih =>
    refine ih _ ?_
    by_cases hmem : q.signer ∈ acc.map Prod.fst
    · rw [upsert_keys_of_mem q.message hmem]
      exact hacc
    · rw [upsert_keys_of_not_mem q.message hmem]
      simpa [List.nodup_append] using ⟨hacc, by simpa using hmem⟩

/-- The evidence map's signers are pairwise distinct, so `countState` really
counts distinct signers. -/
theorem collectStates_keys_nodup (ps : List SignedProto) :
    ((collectStates ps).map Prod.fst).Nodup :=
  collectStates_keys_nodup_aux ps [] (by simp)

/-! Concrete instances used by the witnesses: a lexicographic state
comparator standing for the injected `StateCompare`, and a small
four-participant engine (so the quorum threshold is `q = 3`). -/

def listCompare : List Nat → List Nat → Int
  | [], [] => 0
  | [], _ :: _ => -1
  | _ :: _, [] => 1
  | a :: as, b :: bs => if a < b then -1 else if b < a then 1 else listCompare as bs

def witnessConsensus (h r : Nat) (st : Stage) (rb : List ConsensusRound) : Consensus :=
  { participants := [0, 1, 2, 3], myIdentity := 0, fixedLeader := some 0,
    stateCompare := listCompare, stateValidate := fun _ => true,
    currentHeight := h, currentRound := r, stage := st, rounds := rb, locks := [],
    latency := 1, lockTimeout := 0, commitTimeout := 0, lockReleaseTimeout := 0,
    roundChangeTimeout := 0, decideState := [], decideMessage := none }

def wRound10 : ConsensusRound :=
  { roundNumber := 10, roundChanges := [], commits := [],
    lockedState := [7], lockedStateHash := stateHash [7] }

/-- Claim C4: `verifyCommitMessage` accepts a `<commit>` iff the current
stage is `Commit` (else `ErrCommitStatus`), its height equals the current
height plus one (else `ErrCommitHeightMismatch`), its round equals the
current round exactly (else `ErrCommitRoundMismatch`), its state is
non-empty (else `ErrCommitEmptyState`), and the hash of its state equals the
current round's locked-state hash (else `ErrCommitStateMismatch`). -/
theorem claim_C4_commit_verification (c : Consensus) (m : Message) :
    (c.verifyCommitMessage m = none ↔
      (c.stage = .commit ∧ m.height = c.currentHeight + 1 ∧ m.round = c.currentRound ∧
       m.state ≠ [] ∧ stateHash m.state = c.curRound.lockedStateHash)) ∧
    (c.stage ≠ .commit → c.verifyCommitMessage m = some .errCommitStatus) ∧
    (c.stage = .commit → m.height ≠ c.currentHeight + 1 →
      c.verifyCommitMessage m = some .errCommitHeightMismatch) ∧
    (c.stage = .commit → m.height = c.currentHeight + 1 → m.round ≠ c.currentRound →
      c.verifyCommitMessage m = some .errCommitRoundMismatch) ∧
    (c.stage = .commit → m.height = c.currentHeight + 1 → m.round = c.currentRound →
      m.state = [] → c.verifyCommitMessage m = some .errCommitEmptyState) ∧
    (c.stage = .commit → m.height = c.currentHeight + 1 → m.round = c.currentRound →
      m.state ≠ [] → stateHash m.state ≠ c.curRound.lockedStateHash →
      c.verifyCommitMessage m = some .errCommitStateMismatch) := by
  unfold Consensus.verifyCommitMessage
  refine ⟨?_, ?_, ?_, ?_, ?_, ?_⟩
  · split_ifs <;> simp_all
  · intro h1
    split_ifs <;> simp_all
  · intro h1 h2
    split_ifs <;> simp_all
  · intro h1 h2 h3
    split_ifs <;> simp_all
  · intro h1 h2 h3 h4
    split_ifs <;> simp_all
  · intro h1 h2 h3 h4 h5
    split_ifs <;> simp_all

/-- Witness for claim C4 at a concrete engine: a matching `<commit>` is
accepted; one at a wrong round is rejected with `ErrCommitRoundMismatch`. -/
theorem claim_C4_commit_verification_witness :
    (witnessConsensus 9 10 .commit [wRound10]).verifyCommitMessage
        (Message.mk .commit 10 10 [7] [] none) = none ∧
    (witnessConsensus 9 10 .commit [wRound10]).verifyCommitMessage
        (Message.mk .commit 10 3 [7] [] none) = some .errCommitRoundMismatch :=
  ⟨(claim_C4_commit_verification (witnessConsensus 9 10 .commit [wRound10])
      (Message.mk .commit 10 10 [7] [] none)).1.mpr (by decide),
   (claim_C4_commit_verification (witnessConsensus 9 10 .commit [wRound10])
      (Message.mk .commit 10 3 [7] [] none)).2.2.2.1 (by decide) (by decide) (by decide)⟩

/-- The message-level preconditions of `<lock>` validation: current-leader
signature, height `H+1`, round at least the current round, and a non-empty
state passing the injected predicate. -/
@[reducible] def LockPre (c : Consensus) (m : Message) (sp : SignedProto) : Prop :=
  c.leaderFor c.currentHeight c.currentRound = some sp.signer ∧
  m.height = c.currentHeight + 1 ∧ c.currentRound ≤ m.round ∧
  m.state ≠ [] ∧ c.stateValidate m.state = true

theorem verifyLock_pre (c : Consensus) (m : Message) (sp : SignedProto)
    (hL : c.leaderFor c.currentHeight c.currentRound = some sp.signer)
    (hH : m.height = c.currentHeight + 1) (hR : c.currentRound ≤ m.round)
    (hS : m.state ≠ []) (hV : c.stateValidate m.state = true) :
    c.verifyLockMessage m sp =
      (match checkProofs c lockProofErrs .roundChange m.height m.round m.proof with
       | some e => some e
       | none =>
         if countState (collectStates m.proof) m.state < c.quorum then
           some .errLockProofInsufficient
         else none) := by
  unfold Consensus.verifyLockMessage
  rw [if_neg (by simp [hL]), if_neg (by simp [hH]), if_neg (Nat.not_lt.mpr hR),
      if_neg (by simp [hS, hV])]

theorem verifyLock_err_leader (c : Consensus) (m : Message) (sp : SignedProto)
    (h : c.leaderFor c.currentHeight c.currentRound ≠ some sp.signer) :
    c.verifyLockMessage m sp = some .errLockNotSignedByLeader := by
  unfold Consensus.verifyLockMessage
  rw [if_pos h]

theorem verifyLock_err_height (c : Consensus) (m : Message) (sp : SignedProto)
    (hL : c.leaderFor c.currentHeight c.currentRound = some sp.signer)
    (h : m.height ≠ c.currentHeight + 1) :
    c.verifyLockMessage m sp = some .errLockHeightMismatch := by
  unfold Consensus.verifyLockMessage
  rw [if_neg (by simp [hL]), if_pos h]

theorem verifyLock_err_round (c : Consensus) (m : Message) (sp : SignedProto)
    (hL : c.leaderFor c.currentHeight c.currentRound = some sp.signer)
    (hH : m.height = c.currentHeight + 1) (h : m.round < c.currentRound) :
    c.verifyLockMessage m sp = some .errLockRoundLower := by
  unfold Consensus.verifyLockMessage
  rw [if_neg (by simp [hL]), if_neg (by simp [hH]), if_pos h]

theorem verifyLock_err_state (c : Consensus) (m : Message) (sp : SignedProto)
    (hL : c.leaderFor c.currentHeight c.currentRound = some sp.signer)
    (hH : m.height = c.currentHeight + 1) (hR : c.currentRound ≤ m.round)
    (h : m.state = [] ∨ c.stateValidate m.state = false) :
    c.verifyLockMessage m sp = some .errLockEmptyState := by
  unfold Consensus.verifyLockMessage
  rw [if_neg (by simp [hL]), if_neg (by simp [hH]), if_neg (Nat.not_lt.mpr hR), if_pos h]

/-- Claim C2: `verifyLockMessage` accepts a `<lock>` iff it is signed by the
current leader (else `ErrLockNotSignedByLeader`), its height equals the
current height plus one (else `ErrLockHeightMismatch`), its round is at
least the current round (else `ErrLockRoundLower`), its state is non-empty
and passes the injected predicate (else `ErrLockEmptyState`), every proof is
an envelope-valid `<roundchange>` for the message's height and round from a
known participant (with `ErrMessageSignature` on a bad proof signature and
the `ErrLockProof*` codes for type, height, round and unknown-participant
faults), and at least `q` distinct-signer proofs carry the message's state
(else `ErrLockProofInsufficient`). -/
theorem claim_C2_lock_verification (c : Consensus) (m : Message) (sp : SignedProto) :
    (c.verifyLockMessage m sp = none ↔
      (LockPre c m sp ∧ (∀ p ∈ m.proof, ProofWF c .roundChange m.height m.round p) ∧
       c.quorum ≤ countState (collectStates m.proof) m.state)) ∧
    (c.leaderFor c.currentHeight c.currentRound ≠ some sp.signer →
      c.verifyLockMessage m sp = some .errLockNotSignedByLeader) ∧
    (c.leaderFor c.currentHeight c.currentRound = some sp.signer →
      m.height ≠ c.currentHeight + 1 →
      c.verifyLockMessage m sp = some .errLockHeightMismatch) ∧
    (c.leaderFor c.currentHeight c.currentRound = some sp.signer →
      m.height = c.currentHeight + 1 → m.round < c.currentRound →
      c.verifyLockMessage m sp = some .errLockRoundLower) ∧
    (c.leaderFor c.currentHeight c.currentRound = some sp.signer →
      m.height = c.currentHeight + 1 → c.currentRound ≤ m.round →
      (m.state = [] ∨ c.stateValidate m.state = false) →
      c.verifyLockMessage m sp = some .errLockEmptyState) ∧
    (∀ ps1 p ps2, LockPre c m sp → m.proof = ps1 ++ p :: ps2 →
      (∀ x ∈ ps1, ProofWF c .roundChange m.height m.round x) →
      ((p.version = 1 → p.sigValid = false →
         c.verifyLockMessage m sp = some .errMessageSignature) ∧
       (p.version = 1 → p.sigValid = true → p.signer ∉ c.participants →
         c.verifyLockMessage m sp = some .errLockProofUnknownParticipant) ∧
       (p.version = 1 → p.sigValid = true → p.signer ∈ c.participants →
         p.message.mtype ≠ .roundChange →
         c.verifyLockMessage m sp = some .errLockProofTypeMismatch) ∧
       (p.version = 1 → p.sigValid = true → p.signer ∈ c.participants →
         p.message.mtype = .roundChange → p.message.height ≠ m.height →
         c.verifyLockMessage m sp = some .errLockProofHeightMismatch) ∧
       (p.version = 1 → p.sigValid = true → p.signer ∈ c.participants →
         p.message.mtype = .roundChange → p.message.height = m.height →
         p.message.round ≠ m.round →
         c.verifyLockMessage m sp = some .errLockProofRoundMismatch))) ∧
    (LockPre c m sp → (∀ p ∈ m.proof, ProofWF c .roundChange m.height m.round p) →
      countState (collectStates m.proof) m.state < c.quorum →
      c.verifyLockMessage m sp = some .errLockProofInsufficient) := by
  refine ⟨?_, ?_, ?_, ?_, ?_, ?_, ?_⟩
  · constructor
    · intro hnone
      by_cases hL : c.leaderFor c.currentHeight c.currentRound = some sp.signer
      · by_cases hH : m.height = c.currentHeight + 1
        · by_cases hR : c.currentRound ≤ m.round
          · by_cases hS : m.state = []
            · rw [verifyLock_err_state c m sp hL hH hR (Or.inl hS)] at hnone
              exact Option.noConfusion hnone
            · by_cases hV : c.stateValidate m.state = true
              · have hbase := verifyLock_pre c m sp hL hH hR hS hV
                rcases hcp : checkProofs c lockProofErrs .roundChange m.height m.round m.proof
                  with _ | e
                · rw [hbase, hcp] at hnone
                  dsimp only at hnone
                  split_ifs at hnone with hlt
                  exact ⟨⟨hL, hH, hR, hS, hV⟩,
                    (checkProofs_eq_none c lockProofErrs .roundChange
                      m.height m.round m.proof).mp hcp,
                    Nat.not_lt.mp hlt⟩
                · rw [hbase, hcp] at hnone
                  simp at hnone
              · have hV' : c.stateValidate m.state = false := by
                  cases hb : c.stateValidate m.state
                  · rfl
                  · exact absurd hb hV
                rw [verifyLock_err_state c m sp hL hH hR (Or.inr hV')] at hnone
                exact Option.noConfusion hnone
          · rw [verifyLock_err_round c m sp hL hH (Nat.not_le.mp hR)] at hnone
            exact Option.noConfusion hnone
        · rw [verifyLock_err_height c m sp hL hH] at hnone
          exact Option.noConfusion hnone
      · rw [verifyLock_err_leader c m sp hL] at hnone
        exact Option.noConfusion hnone
    · rintro ⟨⟨hL, hH, hR, hS, hV⟩, hwf, hq⟩
      rw [verifyLock_pre c m sp hL hH hR hS hV,
          (checkProofs_eq_none c lockProofErrs .roundChange m.height m.round m.proof).mpr hwf]
      simp [Nat.not_lt.mpr hq]
  · exact verifyLock_err_leader c m sp
  · exact verifyLock_err_height c m sp
  · exact verifyLock_err_round c m sp
  · exact verifyLock_err_state c m sp
  · rintro ps1 p ps2 ⟨hL, hH, hR, hS, hV⟩ hdec hwf1
    have hbase := verifyLock_pre c m sp hL hH hR hS hV
    refine ⟨?_, ?_, ?_, ?_, ?_⟩
    · intro hv hs
      rw [hbase, hdec,
          checkProofs_append c lockProofErrs .roundChange m.height m.round ps1 _ hwf1]
      simp [checkProofs, envVerdict, hv, hs]
    · intro hv hs hunk
      rw [hbase, hdec,
          checkProofs_append c lockProofErrs .roundChange m.height m.round ps1 _ hwf1]
      simp [checkProofs, envVerdict, hv, hs, hunk, lockProofErrs]
    · intro hv hs hmem htp
      rw [hbase, hdec,
          checkProofs_append c lockProofErrs .roundChange m.height m.round ps1 _ hwf1]
      simp [checkProofs, envVerdict, hv, hs, hmem, htp, lockProofErrs]
    · intro hv hs hmem htp hh
      rw [hbase, hdec,
          checkProofs_append c lockProofErrs .roundChange m.height m.round ps1 _ hwf1]
      simp [checkProofs, envVerdict, hv, hs, hmem, htp, hh, lockProofErrs]
    · intro hv hs hmem htp hh hr
      rw [hbase, hdec,
          checkProofs_append c lockProofErrs .roundChange m.height m.round ps1 _ hwf1]
      simp [checkProofs, envVerdict, hv, hs, hmem, htp, hh, hr, lockProofErrs]
  · rintro ⟨hL, hH, hR, hS, hV⟩ hwf hlt
    rw [verifyLock_pre c m sp hL hH hR hS hV,
        (checkProofs_eq_none c lockProofErrs .roundChange m.height m.round m.proof).mpr hwf]
    simp [hlt]

/-- A signed `<roundchange>` envelope used by witnesses. -/
def wRC (h r : Nat) (st : State) (sgn : Identity) : SignedProto :=
  .mk 1 (.mk .roundChange h r st [] none) sgn true

/-- A signed `<commit>` envelope used by witnesses. -/
def wCM (h r : Nat) (st : State) (sgn : Identity) : SignedProto :=
  .mk 1 (.mk .commit h r st [] none) sgn true

def wLockMsg : Message :=
  .mk .lock 1 10 [1] [wRC 1 10 [1] 1, wRC 1 10 [1] 2, wRC 1 10 [1] 3] none

/-- Witness for claim C2 at a concrete four-participant engine (`q = 3`): a
leader-signed `<lock>` with three distinct-signer matching proofs is
accepted, and the same message signed by a non-leader is rejected with
`ErrLockNotSignedByLeader`. -/
theorem claim_C2_lock_verification_witness :
    (witnessConsensus 0 1 .roundChanging []).verifyLockMessage wLockMsg
        (.mk 1 wLockMsg 0 true) = none ∧
    (witnessConsensus 0 1 .roundChanging []).verifyLockMessage wLockMsg
        (.mk 1 wLockMsg 2 true) = some .errLockNotSignedByLeader :=
  ⟨(claim_C2_lock_verification (witnessConsensus 0 1 .roundChanging []) wLockMsg
      (.mk 1 wLockMsg 0 true)).1.mpr (by decide),
   (claim_C2_lock_verification (witnessConsensus 0 1 .roundChanging []) wLockMsg
      (.mk 1 wLockMsg 2 true)).2.1 (by decide)⟩

/-! Validation of `<decide>` messages (claim C1). -/

/-- The message-level preconditions of `<decide>` validation: signed by the
leader for `(msg.Height - 1, msg.Round)`, height strictly above the current
one, non-empty state. -/
@[reducible] def DecidePre (c : Consensus) (m : Message) (sp : SignedProto) : Prop :=
  c.leaderFor (m.height - 1) m.round = some sp.signer ∧
  c.currentHeight < m.height ∧ m.state ≠ []

theorem verifyDecide_err_leader (c : Consensus) (m : Message) (sp : SignedProto)
    (h : c.leaderFor (m.height - 1) m.round ≠ some sp.signer) :
    c.verifyDecideMessage m sp = some .errDecideNotSignedByLeader := by
  unfold Consensus.verifyDecideMessage
  rw [if_pos h]

theorem verifyDecide_err_height (c : Consensus) (m : Message) (sp : SignedProto)
    (hL : c.leaderFor (m.height - 1) m.round = some sp.signer)
    (h : m.height ≤ c.currentHeight) :
    c.verifyDecideMessage m sp = some .errDecideHeightLower := by
  unfold Consensus.verifyDecideMessage
  rw [if_neg (by simp [hL]), if_pos h]

theorem verifyDecide_err_state (c : Consensus) (m : Message) (sp : SignedProto)
    (hL : c.leaderFor (m.height - 1) m.round = some sp.signer)
    (hH : c.currentHeight < m.height) (h : m.state = []) :
    c.verifyDecideMessage m sp = some .errDecideEmptyState := by
  unfold Consensus.verifyDecideMessage
  rw [if_neg (by simp [hL]), if_neg (Nat.not_le.mpr hH), if_pos h]

theorem verifyDecide_pre (c : Consensus) (m : Message) (sp : SignedProto)
    (hL : c.leaderFor (m.height - 1) m.round = some sp.signer)
    (hH : c.currentHeight < m.height) (hS : m.state ≠ []) :
    c.verifyDecideMessage m sp =
      (match checkProofs c decideProofErrs .commit m.height m.round m.proof with
       | some e => some e
       | none =>
         if countState (collectStates m.proof) m.state < c.quorum then
           some .errDecideProofInsufficient
         else none) := by
  unfold Consensus.verifyDecideMessage
  rw [if_neg (by simp [hL]), if_neg (Nat.not_le.mpr hH), if_neg (by simp [hS])]

/-- Claim C1: `verifyDecideMessage` accepts a `<decide>` iff it is signed by
the leader for `(msg.Height - 1, msg.Round)` (else
`ErrDecideNotSignedByLeader`), its height is strictly greater than the
current height (else `ErrDecideHeightLower`, also when the heights are
equal), its state is non-empty (else `ErrDecideEmptyState`), and its proofs
are envelope-valid distinct-signer `<commit>` messages matching the decide's
height and round (faults yielding the corresponding `ErrDecideProof*` codes
or `ErrMessageSignature`) of which at least `q` carry the decide's state
(else `ErrDecideProofInsufficient`); `ValidateDecideMessage` returns the
same verdict on the encoded envelope without installing the decision. -/
theorem claim_C1_decide_verification (c : Consensus) (m : Message) (sp : SignedProto) :
    (c.verifyDecideMessage m sp = none ↔
      (DecidePre c m sp ∧ (∀ p ∈ m.proof, ProofWF c .commit m.height m.round p) ∧
       c.quorum ≤ countState (collectStates m.proof) m.state)) ∧
    (c.leaderFor (m.height - 1) m.round ≠ some sp.signer →
      c.verifyDecideMessage m sp = some .errDecideNotSignedByLeader) ∧
    (c.leaderFor (m.height - 1) m.round = some sp.signer → m.height ≤ c.currentHeight →
      c.verifyDecideMessage m sp = some .errDecideHeightLower) ∧
    (c.leaderFor (m.height - 1) m.round = some sp.signer → c.currentHeight < m.height →
      m.state = [] → c.verifyDecideMessage m sp = some .errDecideEmptyState) ∧
    (∀ ps1 p ps2, DecidePre c m sp → m.proof = ps1 ++ p :: ps2 →
      (∀ x ∈ ps1, ProofWF c .commit m.height m.round x) →
      ((p.version = 1 → p.sigValid = false →
         c.verifyDecideMessage m sp = some .errMessageSignature) ∧
       (p.version = 1 → p.sigValid = true → p.signer ∉ c.participants →
         c.verifyDecideMessage m sp = some .errDecideProofUnknownParticipant) ∧
       (p.version = 1 → p.sigValid = true → p.signer ∈ c.participants →
         p.message.mtype ≠ .commit →
         c.verifyDecideMessage m sp = some .errDecideProofTypeMismatch) ∧
       (p.version = 1 → p.sigValid = true → p.signer ∈ c.participants →
         p.message.mtype = .commit → p.message.height ≠ m.height →
         c.verifyDecideMessage m sp = some .errDecideProofHeightMismatch) ∧
       (p.version = 1 → p.sigValid = true → p.signer ∈ c.participants →
         p.message.mtype = .commit → p.message.height = m.height →
         p.message.round ≠ m.round →
         c.verifyDecideMessage m sp = some .errDecideProofRoundMismatch))) ∧
    (DecidePre c m sp → (∀ p ∈ m.proof, ProofWF c .commit m.height m.round p) →
      countState (collectStates m.proof) m.state < c.quorum →
      c.verifyDecideMessage m sp = some .errDecideProofInsufficient) ∧
    (∀ ts, envVerdict c sp = none → sp.message = m → m.mtype = .decide →
      c.ValidateDecideMessage (some sp) ts = c.verifyDecideMessage m sp) := by
  refine ⟨?_, ?_, ?_, ?_, ?_, ?_, ?_⟩
  · constructor
    · intro hnone
      by_cases hL : c.leaderFor (m.height - 1) m.round = some sp.signer
      · by_cases hH : c.currentHeight < m.height
        · by_cases hS : m.state = []
          · rw [verifyDecide_err_state c m sp hL hH hS] at hnone
            exact Option.noConfusion hnone
          · have hbase := verifyDecide_pre c m sp hL hH hS
            rcases hcp : checkProofs c decideProofErrs .commit m.height m.round m.proof
              with _ | e
            · rw [hbase, hcp] at hnone
              dsimp only at hnone
              split_ifs at hnone with hlt
              exact ⟨⟨hL, hH, hS⟩,
                (checkProofs_eq_none c decideProofErrs .commit m.height m.round m.proof).mp hcp,
                Nat.not_lt.mp hlt⟩
            · rw [hbase, hcp] at hnone
              simp at hnone
        · rw [verifyDecide_err_height c m sp hL (Nat.not_lt.mp hH)] at hnone
          exact Option.noConfusion hnone
      · rw [verifyDecide_err_leader c m sp hL] at hnone
        exact Option.noConfusion hnone
    · rintro ⟨⟨hL, hH, hS⟩, hwf, hq⟩
      rw [verifyDecide_pre c m sp hL hH hS,
          (checkProofs_eq_none c decideProofErrs .commit m.height m.round m.proof).mpr hwf]
      simp [Nat.not_lt.mpr hq]
  · exact verifyDecide_err_leader c m sp
  · exact verifyDecide_err_height c m sp
  · exact verifyDecide_err_state c m sp
  · rintro ps1 p ps2 ⟨hL, hH, hS⟩ hdec hwf1
    have hbase := verifyDecide_pre c m sp hL hH hS
    refine ⟨?_, ?_, ?_, ?_, ?_⟩
    · intro hv hs
      rw [hbase, hdec,
          checkProofs_append c decideProofErrs .commit m.height m.round ps1 _ hwf1]
      simp [checkProofs, envVerdict, hv, hs]
    · intro hv hs hunk
      rw [hbase, hdec,
          checkProofs_append c decideProofErrs .commit m.height m.round ps1 _ hwf1]
      simp [checkProofs, envVerdict, hv, hs, hunk, decideProofErrs]
    · intro hv hs hmem htp
      rw [hbase, hdec,
          checkProofs_append c decideProofErrs .commit m.height m.round ps1 _ hwf1]
      simp [checkProofs, envVerdict, hv, hs, hmem, htp, decideProofErrs]
    · intro hv hs hmem htp hh
      rw [hbase, hdec,
          checkProofs_append c decideProofErrs .commit m.height m.round ps1 _ hwf1]
      simp [checkProofs, envVerdict, hv, hs, hmem, htp, hh, decideProofErrs]
    · intro hv hs hmem htp hh hr
      rw [hbase, hdec,
          checkProofs_append c decideProofErrs .commit m.height m.round ps1 _ hwf1]
      simp [checkProofs, envVerdict, hv, hs, hmem, htp, hh, hr, decideProofErrs]
  · rintro ⟨hL, hH, hS⟩ hwf hlt
    rw [verifyDecide_pre c m sp hL hH hS,
        (checkProofs_eq_none c decideProofErrs .commit m.height m.round m.proof).mpr hwf]
    simp [hlt]
  · intro ts henv hmsg htype
    unfold Consensus.ValidateDecideMessage
    dsimp only
    rw [henv]
    dsimp only
    rw [if_neg (by simp [hmsg, htype]), hmsg]

def wDecMsg : Message :=
  .mk .decide 10 10 [9] [wCM 10 10 [9] 1, wCM 10 10 [9] 2, wCM 10 10 [9] 3] none

/-- Witness for claim C1 at a concrete four-participant engine (`q = 3`): a
leader-signed `<decide>` for height 10 over current height 9 backed by three
distinct-signer matching `<commit>` proofs is accepted, and
`ValidateDecideMessage` agrees; with current height 10 the same message is
rejected with `ErrDecideHeightLower`. -/
theorem claim_C1_decide_verification_witness :
    (witnessConsensus 9 10 .roundChanging []).verifyDecideMessage wDecMsg
        (.mk 1 wDecMsg 0 true) = none ∧
    (witnessConsensus 9 10 .roundChanging []).ValidateDecideMessage
        (some (.mk 1 wDecMsg 0 true)) [9] =
      (witnessConsensus 9 10 .roundChanging []).verifyDecideMessage wDecMsg
        (.mk 1 wDecMsg 0 true) ∧
    (witnessConsensus 10 10 .roundChanging []).verifyDecideMessage wDecMsg
        (.mk 1 wDecMsg 0 true) = some .errDecideHeightLower :=
  ⟨(claim_C1_decide_verification (witnessConsensus 9 10 .roundChanging []) wDecMsg
      (.mk 1 wDecMsg 0 true)).1.mpr (by decide),
   (claim_C1_decide_verification (witnessConsensus 9 10 .roundChanging []) wDecMsg
      (.mk 1 wDecMsg 0 true)).2.2.2.2.2.2 [9] (by decide) rfl (by decide),
   (claim_C1_decide_verification (witnessConsensus 10 10 .roundChanging []) wDecMsg
      (.mk 1 wDecMsg 0 true)).2.2.1 (by decide) (by decide)⟩

/-! Validation of `<select>` messages (claim C3). -/

theorem verifySelect_pre (c : Consensus) (m : Message) (sp : SignedProto)
    (hL : c.leaderFor c.currentHeight c.currentRound = some sp.signer)
    (hH : m.height = c.currentHeight + 1) (hR : c.currentRound ≤ m.round) :
    c.verifySelectMessage m sp =
      (match checkProofs c selectProofErrs .roundChange m.height m.round m.proof with
       | some e => some e
       | none =>
         if (collectStates m.proof).length < c.quorum then some .errSelectProofInsufficient
         else
           match maximalState c (collectStates m.proof) with
           | none => if m.state ≠ [] then some .errSelectStateMismatch else none
           | some mx =>
             if m.state = [] then some .errSelectStateMismatch
             else if c.stateCompare m.state mx ≠ 0 then some .errSelectProofNotTheMaximal
             else if c.quorum ≤ countState (collectStates m.proof) m.state ∧
                     countState (collectStates m.proof) m.state <
                       (collectStates m.proof).length then
               some .errSelectProofExceeded
             else none) := by
  unfold Consensus.verifySelectMessage
  rw [if_neg (by simp [hL]), if_neg (by simp [hH]), if_neg (Nat.not_lt.mpr hR)]

/-- Claim C3: for a `<select>` message passing the leader, height and round
checks, whose proofs are all envelope-valid matching `<roundchange>` and
whose evidence map holds at least `q` distinct signers, `verifySelectMessage`
rejects with `ErrSelectProofNotTheMaximal` when the message state is
non-null but not comparator-equal to the maximal proof state, with
`ErrSelectStateMismatch` when the message state is null while some proof
carries a non-null state (and likewise, per the spec's phrasing, when all
proofs carry null states but the message state is non-null), and with
`ErrSelectProofExceeded` when the message's state already has `q` distinct
supporters yet further proofs introduce states inconsistent with it. -/
theorem claim_C3_select_maximal_rules (c : Consensus) (m : Message) (sp : SignedProto)
    (hL : c.leaderFor c.currentHeight c.currentRound = some sp.signer)
    (hH : m.height = c.currentHeight + 1) (hR : c.currentRound ≤ m.round)
    (hwf : ∀ p ∈ m.proof, ProofWF c .roundChange m.height m.round p)
    (hlen : c.quorum ≤ (collectStates m.proof).length) :
    (∀ mx, maximalState c (collectStates m.proof) = some mx → m.state ≠ [] →
      c.stateCompare m.state mx ≠ 0 →
      c.verifySelectMessage m sp = some .errSelectProofNotTheMaximal) ∧
    (∀ mx, maximalState c (collectStates m.proof) = some mx → m.state = [] →
      c.verifySelectMessage m sp = some .errSelectStateMismatch) ∧
    (maximalState c (collectStates m.proof) = none → m.state ≠ [] →
      c.verifySelectMessage m sp = some .errSelectStateMismatch) ∧
    (∀ mx, maximalState c (collectStates m.proof) = some mx → m.state ≠ [] →
      c.stateCompare m.state mx = 0 →
      c.quorum ≤ countState (collectStates m.proof) m.state →
      countState (collectStates m.proof) m.state < (collectStates m.proof).length →
      c.verifySelectMessage m sp = some .errSelectProofExceeded) := by
  have hbase := verifySelect_pre c m sp hL hH hR
  have hcpn : checkProofs c selectProofErrs .roundChange m.height m.round m.proof = none :=
    (checkProofs_eq_none c selectProofErrs .roundChange m.height m.round m.proof).mpr hwf
  have hred : c.verifySelectMessage m sp =
      (match maximalState c (collectStates m.proof) with
       | none => if m.state ≠ [] then some .errSelectStateMismatch else none
       | some mx =>
         if m.state = [] then some .errSelectStateMismatch
         else if c.stateCompare m.state mx ≠ 0 then some .errSelectProofNotTheMaximal
         else if c.quorum ≤ countState (collectStates m.proof) m.state ∧
                 countState (collectStates m.proof) m.state <
                   (collectStates m.proof).length then
           some .errSelectProofExceeded
         else none) := by
    rw [hbase, hcpn]
    dsimp only
    rw [if_neg (Nat.not_lt.mpr hlen)]
  refine ⟨?_, ?_, ?_, ?_⟩
  · intro mx hmx hS hcmp
    rw [hred, hmx]
    dsimp only
    rw [if_neg hS, if_pos hcmp]
  · intro mx hmx hS
    rw [hred, hmx]
    dsimp only
    rw [if_pos hS]
  · intro hmx hS
    rw [hred, hmx]
    dsimp only
    rw [if_pos hS]
  · intro mx hmx hS hcmp hq hltl
    rw [hred, hmx]
    dsimp only
    rw [if_neg hS, if_neg (by simp [hcmp]), if_pos ⟨hq, hltl⟩]

def wSelProofsA : List SignedProto := [wRC 1 5 [1] 1, wRC 1 5 [2] 2, wRC 1 5 [3] 3]

def wSelProofsB : List SignedProto :=
  [wRC 1 5 [5] 0, wRC 1 5 [5] 1, wRC 1 5 [5] 2, wRC 1 5 [4] 3]

/-- Witness for claim C3 at a concrete four-participant engine (`q = 3`):
over proofs with states `[1] < [2] < [3]` a `<select>` carrying `[2]` is not
maximal; one carrying the null state is a state mismatch; and over proofs
where `[5]` already has three distinct supporters, a fourth proof carrying
`[4]` makes the leader's `<select>` for `[5]` exceed its quorum evidence. -/
theorem claim_C3_select_maximal_rules_witness :
    (witnessConsensus 0 0 .roundChanging []).verifySelectMessage
        (.mk .select 1 5 [2] wSelProofsA none) (.mk 1 (.mk .select 1 5 [2] wSelProofsA none) 0 true) =
      some .errSelectProofNotTheMaximal ∧
    (witnessConsensus 0 0 .roundChanging []).verifySelectMessage
        (.mk .select 1 5 [] wSelProofsA none) (.mk 1 (.mk .select 1 5 [] wSelProofsA none) 0 true) =
      some .errSelectStateMismatch ∧
    (witnessConsensus 0 0 .roundChanging []).verifySelectMessage
        (.mk .select 1 5 [5] wSelProofsB none) (.mk 1 (.mk .select 1 5 [5] wSelProofsB none) 0 true) =
      some .errSelectProofExceeded :=
  ⟨(claim_C3_select_maximal_rules (witnessConsensus 0 0 .roundChanging [])
      (.mk .select 1 5 [2] wSelProofsA none) (.mk 1 (.mk .select 1 5 [2] wSelProofsA none) 0 true)
      (by decide) (by decide) (by decide) (by decide) (by decide)).1
      [3] (by decide) (by decide) (by decide),
   (claim_C3_select_maximal_rules (witnessConsensus 0 0 .roundChanging [])
      (.mk .select 1 5 [] wSelProofsA none) (.mk 1 (.mk .select 1 5 [] wSelProofsA none) 0 true)
      (by decide) (by decide) (by decide) (by decide) (by decide)).2.1
      [3] (by decide) (by decide),
   (claim_C3_select_maximal_rules (witnessConsensus 0 0 .roundChanging [])
      (.mk .select 1 5 [5] wSelProofsB none) (.mk 1 (.mk .select 1 5 [5] wSelProofsB none) 0 true)
      (by decide) (by decide) (by decide) (by decide) (by decide)).2.2.2
      [5] (by decide) (by decide) (by decide) (by decide) (by decide)⟩

/-! Rejected messages do not mutate the engine (claim C7). -/

/-- Claim C7: an envelope whose version is not 1 is rejected by
`ReceiveMessage` with `ErrMessageVersion`, and in general whenever
`ReceiveMessage` returns a validation error the engine state — height,
round, stage, round book, locks and timers — is exactly the state it was
called with. -/
theorem claim_C7_rejection_no_mutation :
    (∀ (c : Consensus) (sp : SignedProto) (now : Nat), sp.version ≠ 1 →
      ReceiveMessage c (some sp) now = (c, some .errMessageVersion)) ∧
    (∀ (c : Consensus) (bts : Option SignedProto) (now : Nat) (e : VError),
      (ReceiveMessage c bts now).2 = some e → (ReceiveMessage c bts now).1 = c) := by
  constructor
  · intro c sp now hv
    unfold ReceiveMessage
    dsimp only
    rw [show envVerdict c sp = some .errMessageVersion from by
      unfold envVerdict
      rw [if_pos hv]]
  · intro c bts now e h
    unfold ReceiveMessage at h ⊢
    cases bts with
    | none => rfl
    | some sp =>
      dsimp only at h ⊢
      rcases henv : envVerdict c sp with _ | e'
      · rw [henv] at h
        dsimp only at h ⊢
        cases htp : sp.message.mtype
        all_goals rw [htp] at h
        all_goals dsimp only at h ⊢
        case roundChange =>
          rcases hv : c.verifyRoundChangeMessage sp.message with _ | e2
          · rw [hv] at h
            simp at h
          · rfl
        case lock =>
          rcases hv : c.verifyLockMessage sp.message sp with _ | e2
          · rw [hv] at h
            simp at h
          · rfl
        case select =>
          rcases hv : c.verifySelectMessage sp.message sp with _ | e2
          · rw [hv] at h
            simp at h
          · rfl
        case lockRelease =>
          rcases hv : c.verifyLockReleaseMessage sp.message with _ | e2
          · rw [hv] at h
            simp at h
          · rfl
        case commit =>
          rcases hv : c.verifyCommitMessage sp.message with _ | e2
          · rw [hv] at h
            simp at h
          · rfl
        case decide =>
          rcases hv : c.verifyDecideMessage sp.message sp with _ | e2
          · rw [hv] at h
            simp at h
          · rfl
      · rfl

/-- Witness for claim C7: a concrete envelope carrying version 42 is
rejected with `ErrMessageVersion` and the concrete engine is returned
untouched. -/
theorem claim_C7_rejection_no_mutation_witness :
    ReceiveMessage (witnessConsensus 0 0 .roundChanging [])
        (some (.mk 42 (.mk .roundChange 1 0 [1] [] none) 1 true)) 5 =
      (witnessConsensus 0 0 .roundChanging [], some .errMessageVersion) ∧
    (ReceiveMessage (witnessConsensus 0 0 .roundChanging [])
        (some (.mk 42 (.mk .roundChange 1 0 [1] [] none) 1 true)) 5).1 =
      witnessConsensus 0 0 .roundChanging [] :=
  ⟨claim_C7_rejection_no_mutation.1 (witnessConsensus 0 0 .roundChanging [])
      (.mk 42 (.mk .roundChange 1 0 [1] [] none) 1 true) 5 (by decide),
   claim_C7_rejection_no_mutation.2 (witnessConsensus 0 0 .roundChanging [])
      (some (.mk 42 (.mk .roundChange 1 0 [1] [] none) 1 true)) 5 .errMessageVersion
      (by rw [claim_C7_rejection_no_mutation.1 (witnessConsensus 0 0 .roundChanging [])
            (.mk 42 (.mk .roundChange 1 0 [1] [] none) 1 true) 5 (by decide)])⟩

/-! Ordering of the round book (claim C9). -/

/-- Strict ordering of the round book by round number, front to back. -/
def BookSorted (rs : List ConsensusRound) : Prop :=
  rs.Pairwise (fun a b => a.roundNumber < b.roundNumber)

theorem mem_setRound {b : ConsensusRound} {rs : List ConsensusRound} {r : Nat}
    {f : ConsensusRound → ConsensusRound} (hf : ∀ cr, (f cr).roundNumber = cr.roundNumber)
    (hb : b ∈ setRound rs r f) :
    b.roundNumber = r ∨ b.roundNumber ∈ rs.map (fun cr => cr.roundNumber) := by
  induction rs with
  | nil =>
    left
    simp only [setRound, List.mem_singleton] at hb
    rw [hb, hf]
    rfl
  | cons a t ih =>
    simp only [setRound] at hb
    split_ifs at hb with h1 h2
    · rcases List.mem_cons.mp hb with hb' | hb'
      · left
        rw [hb', hf, h1]
      · right
        simp [List.mem_map]
        exact Or.inr ⟨b, hb', rfl⟩
    · rcases List.mem_cons.mp hb with hb' | hb'
      · left
        rw [hb', hf]
        rfl
      · right
        rcases List.mem_cons.mp hb' with hb'' | hb''
        · simp [hb'']
        · simp [List.mem_map]
          exact Or.inr ⟨b, hb'', rfl⟩
    · rcases List.mem_cons.mp hb with hb' | hb'
      · right
        simp [hb']
      · rcases ih hb' with h | h
        · exact Or.inl h
        · right
          simpa using Or.inr (by simpa using h)

theorem setRound_sorted (rs : List ConsensusRound) (r : Nat)
    (f : ConsensusRound → ConsensusRound) (hf : ∀ cr, (f cr).roundNumber = cr.roundNumber)
    (hs : BookSorted rs) : BookSorted (setRound rs r f) := by
  induction rs with
  | nil => simp [setRound, BookSorted]
  | cons a t ih =>
    rcases List.pairwise_cons.mp hs with ⟨hall, ht⟩
    simp only [setRound]
    split_ifs with h1 h2
    · exact List.pairwise_cons.mpr ⟨fun b hb => by rw [hf]; exact hall b hb, ht⟩
    · refine List.pairwise_cons.mpr ⟨?_, hs⟩
      intro b hb
      rw [hf]
      rcases List.mem_cons.mp hb with hb' | hb'
      · rw [hb']
        exact h2
      · exact lt_trans h2 (hall b hb')
    · refine List.pairwise_cons.mpr ⟨?_, ih ht⟩
      intro b hb
      rcases mem_setRound hf hb with h | h
      · rw [h]
        exact lt_of_le_of_ne (Nat.not_lt.mp h2) (fun he => h1 he.symm)
      · rcases List.mem_map.mp h with ⟨cr, hcr, hrn⟩
        rw [← hrn]
        exact hall cr hcr

/-- Claim C9: for every sequence of round-container lookups and creations
(`getRound` called with arbitrary round numbers), a strictly ordered round
book stays strictly ordered by `RoundNumber` from front to back, and in
particular never holds two containers with the same `RoundNumber`. -/
theorem claim_C9_round_book_sorted (rs0 : List ConsensusRound) (calls : List Nat)
    (h0 : BookSorted rs0) :
    BookSorted (calls.foldl (fun rs r => getRound rs r) rs0) ∧
    (calls.foldl (fun rs r => getRound rs r) rs0).Pairwise
      (fun a b => a.roundNumber ≠ b.roundNumber) := by
  have key : ∀ (cs : List Nat) (rs : List ConsensusRound), BookSorted rs →
      BookSorted (cs.foldl (fun rs r => getRound rs r) rs) := by
    intro cs
    induction cs with
    | nil => exact fun rs h => h
    | cons a t ih =>
      intro rs h
      exact ih _ (setRound_sorted rs a _ (fun cr => rfl) h)
  refine ⟨key calls rs0 h0, ?_⟩
  exact List.Pairwise.imp (fun hlt => Nat.ne_of_lt hlt) (key calls rs0 h0)

/-- Witness for claim C9: creating rounds 100, 3, 7 and again 3 in an empty
book leaves it strictly ordered without duplicates. -/
theorem claim_C9_round_book_sorted_witness :
    BookSorted (([100, 3, 7, 3] : List Nat).foldl (fun rs r => getRound rs r) []) ∧
    (([100, 3, 7, 3] : List Nat).foldl (fun rs r => getRound rs r) []).Pairwise
      (fun a b => a.roundNumber ≠ b.roundNumber) :=
  claim_C9_round_book_sorted [] [100, 3, 7, 3] List.Pairwise.nil

/-! Per-signer `<roundchange>` deduplication (claim C5). -/

/-- The inner `<roundchange>` message used by the flood scenarios. -/
def rcMsg (h r : Nat) (st : State) : Message := .mk .roundChange h r st [] none

/-- A well-signed `<roundchange>` envelope from a signer. -/
def rcSP (h r : Nat) (st : State) (p : Identity) : SignedProto :=
  .mk 1 (rcMsg h r st) p true

/-- No `<roundchange>` from this signer anywhere in the round book. -/
@[reducible] def AbsentRC (rs : List ConsensusRound) (p : Identity) : Prop :=
  ∀ cr ∈ rs, p ∉ cr.roundChanges.map Prod.fst

theorem rcRetained_nil (p : Identity) : rcRetained [] p = [] := rfl

theorem rcRetained_cons (cr : ConsensusRound) (t : List ConsensusRound) (p : Identity) :
    rcRetained (cr :: t) p =
      (cr.roundChanges.filter (fun e => e.1 = p)).map (fun e => e.2) ++ rcRetained t p := rfl

theorem bookHighestRC_cons (cr : ConsensusRound) (t : List ConsensusRound) (p : Identity) :
    bookHighestRC (cr :: t) p =
      (if cr.roundChanges.any (fun e => e.1 = p) then
        match bookHighestRC t p with
        | none => some cr.roundNumber
        | some m => some (max cr.roundNumber m)
      else bookHighestRC t p) := rfl

theorem filter_signer_eq_nil {p : Identity} {l : List (Identity × Message)}
    (h : p ∉ l.map Prod.fst) : l.filter (fun e => e.1 = p) = [] := by
  induction l with
  | nil => rfl
  | cons a t ih =>
    have ha : ¬(a.1 = p) := fun he => h (by simp [he])
    have ht : p ∉ t.map Prod.fst := fun he => h (by simp [he])
    simp [List.filter_cons, ha, ih ht]

theorem any_signer_eq_false {p : Identity} {l : List (Identity × Message)}
    (h : p ∉ l.map Prod.fst) : (l.any (fun e => e.1 = p)) = false := by
  rw [List.any_eq_false]
  intro e he
  simp only [decide_eq_true_eq]
  intro hep
  exact h (List.mem_map.mpr ⟨e, he, hep⟩)

theorem rcRetained_eq_nil {rs : List ConsensusRound} {p : Identity}
    (h : AbsentRC rs p) : rcRetained rs p = [] := by
  induction rs with
  | nil => rfl
  | cons cr t ih =>
    rw [rcRetained_cons, filter_signer_eq_nil (h cr (by simp)),
        ih (fun cr' hcr' => h cr' (by simp [hcr']))]
    rfl

theorem bookHighestRC_eq_none {rs : List ConsensusRound} {p : Identity}
    (h : AbsentRC rs p) : bookHighestRC rs p = none := by
  induction rs with
  | nil => rfl
  | cons cr t ih =>
    rw [bookHighestRC_cons, if_neg, ih (fun cr' hcr' => h cr' (by simp [hcr']))]
    rw [any_signer_eq_false (h cr (by simp))]
    exact Bool.false_ne_true

theorem removeRC_absent (rs : List ConsensusRound) (p : Identity) :
    AbsentRC (removeRC rs p) p := by
  intro cr hcr
  rcases List.mem_map.mp hcr with ⟨cr0, hcr0, hcr1⟩
  intro hp
  rcases List.mem_map.mp hp with ⟨e, he, hep⟩
  rw [← hcr1] at he
  have hf := (List.mem_filter.mp he).2
  simp [hep] at hf

theorem upsert_of_not_mem {p : Identity} {m : Message} {l : List (Identity × Message)}
    (h : p ∉ l.map Prod.fst) : upsert p m l = l ++ [(p, m)] := by
  induction l with
  | nil => rfl
  | cons a t ih =>
    have ha : ¬(a.1 = p) := fun he => h (by simp [he])
    have ht : p ∉ t.map Prod.fst := fun he => h (by simp [he])
    simp [upsert, ha, ih ht]

theorem mem_setRound_cases {b : ConsensusRound} {rs : List ConsensusRound} {r : Nat}
    {f : ConsensusRound → ConsensusRound} (hb : b ∈ setRound rs r f) :
    b ∈ rs ∨ b = f (emptyRound r) ∨ ∃ a, a ∈ rs ∧ b = f a := by
  induction rs with
  | nil =>
    right
    left
    simpa [setRound] using hb
  | cons a t ih =>
    simp only [setRound] at hb
    split_ifs at hb with h1 h2
    · rcases List.mem_cons.mp hb with hb' | hb'
      · exact Or.inr (Or.inr ⟨a, by simp, hb'⟩)
      · exact Or.inl (by simp [hb'])
    · rcases List.mem_cons.mp hb with hb' | hb'
      · exact Or.inr (Or.inl hb')
      · exact Or.inl hb'
    · rcases List.mem_cons.mp hb with hb' | hb'
      · exact Or.inl (by simp [hb'])
      · rcases ih hb' with h | h | ⟨a', ha', hba'⟩
        · exact Or.inl (by simp [h])
        · exact Or.inr (Or.inl h)
        · exact Or.inr (Or.inr ⟨a', by simp [ha'], hba'⟩)

theorem keys_upsert_sub {x p : Identity} {m : Message} {l : List (Identity × Message)}
    (h : x ∈ (upsert p m l).map Prod.fst) : x = p ∨ x ∈ l.map Prod.fst := by
  rcases List.mem_map.mp h with ⟨e, he, hex⟩
  rcases mem_upsert he with he' | he'
  · left
    rw [← hex, he']
  · right
    exact List.mem_map.mpr ⟨e, he', hex⟩

theorem rcIns_absent_other {rs : List ConsensusRound} {p q : Identity} {r : Nat} {m : Message}
    (hne : q ≠ p) (h : AbsentRC rs q) : AbsentRC (rcIns rs r p m) q := by
  intro cr hcr
  rcases mem_setRound_cases hcr with hmem | heq | ⟨a, ha, heq⟩
  · exact h cr hmem
  · intro hq
    rw [heq] at hq
    dsimp only [emptyRound] at hq
    rcases keys_upsert_sub hq with h' | h'
    · exact hne h'
    · simp at h'
  · intro hq
    rw [heq] at hq
    dsimp only at hq
    rcases keys_upsert_sub hq with h' | h'
    · exact hne h'
    · exact h a ha h'

theorem rcIns_retained {rs : List ConsensusRound} {p : Identity} (r : Nat) (m : Message)
    (h : AbsentRC rs p) :
    rcRetained (rcIns rs r p m) p = [m] ∧ bookHighestRC (rcIns rs r p m) p = some r := by
  induction rs with
  | nil =>
    constructor
    · rw [show rcIns [] r p m =
          [{ emptyRound r with roundChanges := [(p, m)] }] from rfl]
      rw [rcRetained_cons]
      simp [rcRetained_nil]
    · rw [show rcIns [] r p m =
          [{ emptyRound r with roundChanges := [(p, m)] }] from rfl]
      rw [bookHighestRC_cons]
      simp [bookHighestRC, emptyRound]
  | cons a t ih =>
    have ha : p ∉ a.roundChanges.map Prod.fst := h a (by simp)
    have ht : AbsentRC t p := fun cr hcr => h cr (by simp [hcr])
    by_cases h1 : r = a.roundNumber
    · have hstep : rcIns (a :: t) r p m =
          { a with roundChanges := upsert p m a.roundChanges } :: t := by
        simp [rcIns, setRound, h1]
      constructor
      · rw [hstep, rcRetained_cons]
        dsimp only
        rw [upsert_of_not_mem ha, List.filter_append, filter_signer_eq_nil ha,
            rcRetained_eq_nil ht]
        simp
      · rw [hstep, bookHighestRC_cons]
        dsimp only
        rw [bookHighestRC_eq_none ht, if_pos]
        · rw [h1]
        · rw [upsert_of_not_mem ha]
          simp
    · by_cases h2 : r < a.roundNumber
      · have hstep : rcIns (a :: t) r p m =
            { emptyRound r with roundChanges := [(p, m)] } :: a :: t := by
          simp [rcIns, setRound, h1, h2, emptyRound, upsert]
        constructor
        · rw [hstep, rcRetained_cons]
          dsimp only
          rw [rcRetained_eq_nil h]
          simp
        · rw [hstep, bookHighestRC_cons]
          dsimp only
          rw [bookHighestRC_eq_none h]
          simp [emptyRound]
      · have hstep : rcIns (a :: t) r p m = a :: rcIns t r p m := by
          simp [rcIns, setRound, h1, h2]
        rcases ih ht with ⟨ihr, ihh⟩
        constructor
        · rw [hstep, rcRetained_cons, filter_signer_eq_nil ha, ihr]
          rfl
        · rw [hstep, bookHighestRC_cons, any_signer_eq_false ha]
          · rw [ihh]
            rfl

theorem insertAndReact_fields (c : Consensus) (m : Message) (p : Identity) (now : Nat) :
    (insertAndReact c m p now).rounds = rcIns c.rounds m.round p m ∧
    (insertAndReact c m p now).currentHeight = c.currentHeight ∧
    (insertAndReact c m p now).participants = c.participants ∧
    ((insertAndReact c m p now).currentRound = c.currentRound ∨
     (insertAndReact c m p now).currentRound = m.round) := by
  unfold insertAndReact switchToLock
  dsimp only
  split_ifs with h
  · exact ⟨rfl, rfl, rfl, Or.inr rfl⟩
  · exact ⟨rfl, rfl, rfl, Or.inl rfl⟩

/-- Invariant of the flood scenario: the engine keeps height and
participants, retains exactly the one `<roundchange>` from the signer at the
highest round `M` seen so far, and its current round never exceeds `M`. -/
def SoleRC (c0 : Consensus) (p : Identity) (st : State) (M : Nat) (c : Consensus) : Prop :=
  c.currentHeight = c0.currentHeight ∧ c.participants = c0.participants ∧
  rcRetained c.rounds p = [rcMsg (c0.currentHeight + 1) M st] ∧
  bookHighestRC c.rounds p = some M ∧ c.currentRound ≤ M

theorem rc_receive_reduce (c0 : Consensus) (p : Identity) (st : State) (r now : Nat)
    (c : Consensus) (hH : c.currentHeight = c0.currentHeight)
    (hp : p ∈ c.participants) :
    (ReceiveMessage c (some (rcSP (c0.currentHeight + 1) r st p)) now).1 =
      (if r < c.currentRound then c
       else receiveRoundChange c (rcMsg (c0.currentHeight + 1) r st) p now) := by
  have henv : envVerdict c (rcSP (c0.currentHeight + 1) r st p) = none := by
    rw [envVerdict_eq_none]
    exact ⟨rfl, rfl, hp⟩
  unfold ReceiveMessage
  dsimp only
  rw [henv]
  dsimp only [rcSP, SignedProto.message, SignedProto.signer, rcMsg, Message.mtype]
  unfold Consensus.verifyRoundChangeMessage
  dsimp only [Message.height, Message.round]
  rw [if_neg (by simp [hH])]
  by_cases hr : r < c.currentRound
  · rw [if_pos hr, if_pos hr]
  · rw [if_neg hr, if_neg hr]

theorem rc_insert_sole (c0 : Consensus) (p : Identity) (st : State) (r now : Nat)
    (c : Consensus) (hH : c.currentHeight = c0.currentHeight)
    (hP : c.participants = c0.participants) (habs : AbsentRC c.rounds p)
    (hcr : c.currentRound ≤ r) :
    SoleRC c0 p st r (insertAndReact c (rcMsg (c0.currentHeight + 1) r st) p now) := by
  obtain ⟨hf1, hf2, hf3, hf4⟩ :=
    insertAndReact_fields c (rcMsg (c0.currentHeight + 1) r st) p now
  have hround : (rcMsg (c0.currentHeight + 1) r st).round = r := rfl
  rcases rcIns_retained r (rcMsg (c0.currentHeight + 1) r st) habs with ⟨hret, hhigh⟩
  refine ⟨by rw [hf2, hH], by rw [hf3, hP], ?_, ?_, ?_⟩
  · rw [hf1, hround]
    exact hret
  · rw [hf1, hround]
    exact hhigh
  · rcases hf4 with h | h
    · rw [h]
      exact hcr
    · rw [h, hround]

theorem rc_step (c0 : Consensus) (p : Identity) (st : State)
    (hp : p ∈ c0.participants) (M : Nat) (c : Consensus)
    (hInv : SoleRC c0 p st M c) (r now : Nat) :
    SoleRC c0 p st (max M r)
      (ReceiveMessage c (some (rcSP (c0.currentHeight + 1) r st p)) now).1 := by
  obtain ⟨hH, hP, hRet, hHigh, hCR⟩ := hInv
  rw [rc_receive_reduce c0 p st r now c hH (by rw [hP]; exact hp)]
  by_cases hr : r < c.currentRound
  · rw [if_pos hr]
    have hmax : max M r = M := Nat.max_eq_left (le_of_lt (lt_of_lt_of_le hr hCR))
    rw [hmax]
    exact ⟨hH, hP, hRet, hHigh, hCR⟩
  · rw [if_neg hr]
    unfold receiveRoundChange
    rw [hHigh]
    dsimp only [rcMsg, Message.round]
    by_cases hle : r ≤ M
    · rw [if_pos hle]
      have hmax : max M r = M := Nat.max_eq_left hle
      rw [hmax]
      exact ⟨hH, hP, hRet, hHigh, hCR⟩
    · rw [if_neg hle]
      have hmax : max M r = r := Nat.max_eq_right (le_of_lt (Nat.not_le.mp hle))
      rw [hmax]
      have habs : AbsentRC (removeRC c.rounds p) p := removeRC_absent c.rounds p
      exact rc_insert_sole c0 p st r now { c with rounds := removeRC c.rounds p }
        hH hP habs (le_trans hCR (le_of_lt (Nat.not_le.mp hle)))

theorem rc_fold (c0 : Consensus) (p : Identity) (st : State) (now : Nat)
    (hp : p ∈ c0.participants) :
    ∀ (rs : List Nat) (M : Nat) (c : Consensus), SoleRC c0 p st M c →
      SoleRC c0 p st (rs.foldl max M)
        (deliverAll c (rs.map (fun r => rcSP (c0.currentHeight + 1) r st p)) now) := by
  intro rs
  induction rs with
  | nil => exact fun M c h => h
  | cons r rest ih =>
    intro M c h
    rw [List.map_cons, List.foldl_cons]
    exact ih (max M r) _ (rc_step c0 p st hp M c h r now)

/-- Claim C5: delivering any sequence of `<roundchange>` messages from one
signer through `ReceiveMessage` at arbitrary rounds (starting from an engine
holding none from that signer, at round 0 so every round is admissible)
leaves exactly one `<roundchange>` from that signer in the whole round book,
and its `Round` field is the maximum round delivered; lower-round ones are
discarded. -/
theorem claim_C5_roundchange_dedup (c0 : Consensus) (p : Identity) (st : State)
    (rs : List Nat) (now : Nat)
    (hp : p ∈ c0.participants) (habs : AbsentRC c0.rounds p)
    (hcr : c0.currentRound = 0) (hne : rs ≠ []) :
    (rcRetained (deliverAll c0 (rs.map (fun r => rcSP (c0.currentHeight + 1) r st p)) now).rounds
        p).length = 1 ∧
    (rcRetained (deliverAll c0 (rs.map (fun r => rcSP (c0.currentHeight + 1) r st p)) now).rounds
        p).map Message.round = [rs.foldl max 0] := by
  rcases rs with _ | ⟨r, rest⟩
  · exact absurd rfl hne
  · have hfirst : SoleRC c0 p st r
        (ReceiveMessage c0 (some (rcSP (c0.currentHeight + 1) r st p)) now).1 := by
      rw [rc_receive_reduce c0 p st r now c0 rfl hp]
      rw [if_neg (by rw [hcr]; exact Nat.not_lt_zero r)]
      unfold receiveRoundChange
      rw [bookHighestRC_eq_none habs]
      exact rc_insert_sole c0 p st r now c0 rfl rfl habs (by rw [hcr]; exact Nat.zero_le r)
    have hfold := rc_fold c0 p st now hp rest r _ hfirst
    rw [List.map_cons] at *
    rw [show (deliverAll c0
        (rcSP (c0.currentHeight + 1) r st p ::
          rest.map (fun r => rcSP (c0.currentHeight + 1) r st p)) now) =
        (deliverAll (ReceiveMessage c0 (some (rcSP (c0.currentHeight + 1) r st p)) now).1
          (rest.map (fun r => rcSP (c0.currentHeight + 1) r st p)) now) from rfl]
    obtain ⟨_, _, hRet, _, _⟩ := hfold
    rw [hRet]
    constructor
    · rfl
    · rw [List.foldl_cons, Nat.zero_max]
      rfl

def wRCFloodBase : Consensus := witnessConsensus 1 0 .roundChanging []

/-- Witness for claim C5: signer 2 floods rounds 7, 3, 12, 7; exactly one
`<roundchange>` survives and it carries round 12. -/
theorem claim_C5_roundchange_dedup_witness :
    (rcRetained (deliverAll wRCFloodBase
        (([7, 3, 12, 7] : List Nat).map (fun r => rcSP (wRCFloodBase.currentHeight + 1) r [5] 2))
        1).rounds 2).length = 1 ∧
    (rcRetained (deliverAll wRCFloodBase
        (([7, 3, 12, 7] : List Nat).map (fun r => rcSP (wRCFloodBase.currentHeight + 1) r [5] 2))
        1).rounds 2).map Message.round = [([7, 3, 12, 7] : List Nat).foldl max 0] :=
  claim_C5_roundchange_dedup wRCFloodBase 2 [5] [7, 3, 12, 7] 1
    (by decide) (by decide) rfl (by decide)

/-! Quorum of `<roundchange>` and the timeout-driven stage sequence
(claim C6). -/

theorem findRound_setRound {rs : List ConsensusRound} {r : Nat}
    (f : ConsensusRound → ConsensusRound) (hf : ∀ cr, (f cr).roundNumber = cr.roundNumber)
    (hs : BookSorted rs) : findRound (setRound rs r f) r = f (findRound rs r) := by
  induction rs with
  | nil =>
    unfold setRound findRound
    rw [List.find?_cons_of_pos _ (by simp [hf, emptyRound]), List.find?_nil]
  | cons a t ih =>
    rcases List.pairwise_cons.mp hs with ⟨hall, ht⟩
    unfold setRound
    split_ifs with h1 h2
    · unfold findRound
      rw [List.find?_cons_of_pos _ (by simp [hf, h1]),
          List.find?_cons_of_pos _ (by simp [h1])]
    · unfold findRound
      rw [List.find?_cons_of_pos _ (by simp [hf, emptyRound]),
          List.find?_cons_of_neg _ (by simp; exact fun he => h1 he.symm),
          List.find?_eq_none.mpr]
      intro b hb
      simp only [decide_eq_true_eq]
      intro hbr
      have := hall b hb
      rw [hbr] at this
      exact absurd (lt_trans h2 this) (lt_irrefl r)
    · unfold findRound
      rw [List.find?_cons_of_neg _ (by simp; exact fun he => h1 he.symm),
          List.find?_cons_of_neg _ (by simp; exact fun he => h1 he.symm)]
      exact ih ht

theorem insertAndReact_current (c : Consensus) (m : Message) (p : Identity) (now : Nat)
    (hr : m.round = c.currentRound) :
    insertAndReact c m p now =
      (if c.quorum ≤ (findRound (rcIns c.rounds m.round p m) m.round).roundChanges.length ∧
          c.stage = .roundChanging then
        { c with rounds := rcIns c.rounds m.round p m, currentRound := m.round,
                 stage := .lock, lockTimeout := now + 2 * c.latency }
      else { c with rounds := rcIns c.rounds m.round p m }) := by
  unfold insertAndReact switchToLock
  dsimp only
  by_cases h : c.quorum ≤ (findRound (rcIns c.rounds m.round p m) m.round).roundChanges.length ∧
      c.stage = .roundChanging
  · rw [if_pos ⟨h.1, Or.inr ⟨hr, h.2⟩⟩, if_pos h]
  · rw [if_neg ?_, if_neg h]
    rintro ⟨hq, hor⟩
    rcases hor with hlt | ⟨_, hst⟩
    · rw [hr] at hlt
      exact absurd hlt (lt_irrefl _)
    · exact h ⟨hq, hst⟩

/-- Invariant of the quorum-gathering scenario at the current round: height,
round, participants and latency are unchanged, the book stays sorted, the
current round's container holds exactly the processed signers, and the stage
is still `RoundChanging` with an untouched `lockTimeout` below quorum, or
`Lock` with `lockTimeout` armed from quorum on. -/
def QuorumInv (c0 : Consensus) (done : List Identity) (now : Nat) (c : Consensus) : Prop :=
  c.currentHeight = c0.currentHeight ∧ c.currentRound = c0.currentRound ∧
  c.participants = c0.participants ∧ c.latency = c0.latency ∧
  BookSorted c.rounds ∧
  (findRound c.rounds c0.currentRound).roundChanges.map Prod.fst = done ∧
  ((done.length < c0.quorum ∧ c.stage = .roundChanging ∧ c.lockTimeout = c0.lockTimeout) ∨
   (c0.quorum ≤ done.length ∧ c.stage = .lock ∧ c.lockTimeout = now + 2 * c0.latency))

theorem quorum_step (c0 : Consensus) (st : State) (now : Nat) (done : List Identity)
    (c : Consensus) (p : Identity) (hmem : p ∈ c0.participants) (hnd : p ∉ done)
    (habs : AbsentRC c.rounds p) (hInv : QuorumInv c0 done now c) :
    QuorumInv c0 (done ++ [p]) now
      (ReceiveMessage c (some (rcSP (c0.currentHeight + 1) c0.currentRound st p)) now).1 ∧
    (ReceiveMessage c (some (rcSP (c0.currentHeight + 1) c0.currentRound st p)) now).1.rounds =
      rcIns c.rounds c0.currentRound p (rcMsg (c0.currentHeight + 1) c0.currentRound st) := by
  obtain ⟨hH, hR, hP, hLat, hSort, hBook, hStage⟩ := hInv
  have hquo : c.quorum = c0.quorum := by
    unfold Consensus.quorum
    rw [hP]
  set m := rcMsg (c0.currentHeight + 1) c0.currentRound st with hm
  have hmr : m.round = c.currentRound := by
    rw [hR]
    rfl
  have hred : (ReceiveMessage c (some (rcSP (c0.currentHeight + 1) c0.currentRound st p)) now).1 =
      insertAndReact c m p now := by
    rw [rc_receive_reduce c0 p st c0.currentRound now c hH (by rw [hP]; exact hmem)]
    rw [if_neg (by rw [hR]; exact lt_irrefl _)]
    unfold receiveRoundChange
    rw [bookHighestRC_eq_none habs]
  have hcnt : (findRound (rcIns c.rounds m.round p m) m.round).roundChanges =
      (findRound c.rounds m.round).roundChanges ++ [(p, m)] := by
    unfold rcIns
    rw [findRound_setRound
        (fun cr => { cr with roundChanges := upsert p m cr.roundChanges })
        (fun cr => rfl) hSort]
    dsimp only
    rw [upsert_of_not_mem]
    rw [hmr, hR, hBook]
    exact hnd
  have hlen : (findRound (rcIns c.rounds m.round p m) m.round).roundChanges.length =
      done.length + 1 := by
    rw [hcnt, List.length_append]
    have : (findRound c.rounds m.round).roundChanges.length = done.length := by
      rw [hmr, hR, ← hBook, List.length_map]
    rw [this]
    rfl
  have hkeys : (findRound (rcIns c.rounds m.round p m) m.round).roundChanges.map Prod.fst =
      done ++ [p] := by
    rw [hcnt, List.map_append]
    rw [hmr, hR, hBook]
    rfl
  have hsort' : BookSorted (rcIns c.rounds m.round p m) :=
    setRound_sorted _ _ _ (fun cr => rfl) hSort
  rw [hred, insertAndReact_current c m p now hmr]
  split_ifs with hcond
  · -- quorum reached exactly now: switch to Lock
    refine ⟨⟨hH, by dsimp only; rw [hmr, hR], hP, hLat, hsort', ?_, ?_⟩, ?_⟩
    · dsimp only
      rw [show c0.currentRound = m.round from by rw [hmr, hR]]
      exact hkeys
    · right
      refine ⟨?_, rfl, by dsimp only; rw [hLat]⟩
      rw [List.length_append]
      have := hcond.1
      rw [hquo, hlen] at this
      simpa using this
    · dsimp only
      rw [hmr, hR]
  · -- no transition: either below quorum or already locked
    refine ⟨⟨hH, hR, hP, hLat, hsort', ?_, ?_⟩, ?_⟩
    · dsimp only
      rw [show c0.currentRound = m.round from by rw [hmr, hR]]
      exact hkeys
    · rcases hStage with ⟨hlt, hst, hti⟩ | ⟨hge, hst, hti⟩
      · left
        refine ⟨?_, hst, hti⟩
        rw [List.length_append]
        by_contra hgece
        have hge' : c0.quorum ≤ done.length + 1 := by
          simpa using Nat.not_lt.mp hgece
        exact hcond ⟨by rw [hquo, hlen]; exact hge', hst⟩
      · right
        refine ⟨?_, hst, hti⟩
        rw [List.length_append]
        exact le_trans hge (Nat.le_add_right _ _)
    · dsimp only
      rw [hmr, hR]

theorem quorum_fold (c0 : Consensus) (st : State) (now : Nat) :
    ∀ (rest done : List Identity) (c : Consensus),
      (done ++ rest).Nodup → (∀ q_ ∈ rest, q_ ∈ c0.participants) →
      (∀ q_ ∈ rest, AbsentRC c.rounds q_) → QuorumInv c0 done now c →
      QuorumInv c0 (done ++ rest) now
        (deliverAll c (rest.map (fun q_ => rcSP (c0.currentHeight + 1) c0.currentRound st q_))
          now) := by
  intro rest
  induction rest with
  | nil =>
    intro done c _ _ _ h
    simpa using h
  | cons p rest ih =>
    intro done c hnodup hmem habs hInv
    have hnd : p ∉ done := by
      intro hp
      have := List.disjoint_of_nodup_append hnodup
      exact this hp (by simp)
    rcases quorum_step c0 st now done c p (hmem p (by simp)) hnd (habs p (by simp)) hInv
      with ⟨hInv', hrounds⟩
    have habs' : ∀ q_ ∈ rest, AbsentRC
        (ReceiveMessage c (some (rcSP (c0.currentHeight + 1) c0.currentRound st p)) now).1.rounds
        q_ := by
      intro q_ hq
      rw [hrounds]
      have hqp : q_ ≠ p := by
        intro he
        have hnodup' := (List.nodup_append.mp hnodup).2.1
        rcases List.nodup_cons.mp hnodup' with ⟨hpn, _⟩
        exact hpn (he ▸ hq)
      exact rcIns_absent_other hqp (habs q_ (by simp [hq]))
    have hnodup' : ((done ++ [p]) ++ rest).Nodup := by
      rwa [List.append_assoc, List.singleton_append]
    have := ih (done ++ [p]) _ hnodup' (fun q_ hq => hmem q_ (by simp [hq])) habs' hInv'
    rw [List.append_assoc, List.singleton_append] at this
    rw [List.map_cons]
    exact this

/-- Claim C6: starting in `RoundChanging`, receiving `q` valid
`<roundchange>` for the current height and round drives the stage to `Lock`
with `lockTimeout` armed (non-zero); then an `Update` past every deadline
moves a leader directly to `LockRelease` while a non-leader moves to
`Commit`; a further expired `Update` moves the non-leader to `LockRelease`;
and a final expired `Update` moves either node back to `RoundChanging` (at
the next round). -/
theorem claim_C6_stage_timeline :
    (∀ (c0 : Consensus) (ss : List Identity) (st : State) (now : Nat),
      c0.stage = .roundChanging → BookSorted c0.rounds →
      (findRound c0.rounds c0.currentRound).roundChanges = [] →
      ss.Nodup → (∀ q_ ∈ ss, q_ ∈ c0.participants) → (∀ q_ ∈ ss, AbsentRC c0.rounds q_) →
      c0.quorum ≤ ss.length → 0 < now →
      (deliverAll c0 (ss.map (fun q_ => rcSP (c0.currentHeight + 1) c0.currentRound st q_))
          now).stage = .lock ∧
      (deliverAll c0 (ss.map (fun q_ => rcSP (c0.currentHeight + 1) c0.currentRound st q_))
          now).lockTimeout = now + 2 * c0.latency ∧
      (deliverAll c0 (ss.map (fun q_ => rcSP (c0.currentHeight + 1) c0.currentRound st q_))
          now).lockTimeout ≠ 0) ∧
    (∀ (c : Consensus) (now : Nat), c.stage = .lock → c.isLeaderSelf = true →
      c.lockTimeout ≠ 0 → c.lockTimeout < now →
      (Update c now).stage = .lockRelease ∧
      (Update c now).lockReleaseTimeout = now + 2 * c.latency) ∧
    (∀ (c : Consensus) (now : Nat), c.stage = .lock → c.isLeaderSelf = false →
      c.lockTimeout ≠ 0 → c.lockTimeout < now →
      (Update c now).stage = .commit ∧
      (Update c now).commitTimeout = now + 4 * c.latency) ∧
    (∀ (c : Consensus) (now : Nat), c.stage = .commit →
      c.commitTimeout ≠ 0 → c.commitTimeout < now →
      (Update c now).stage = .lockRelease ∧
      (Update c now).lockReleaseTimeout = now + 2 * c.latency) ∧
    (∀ (c : Consensus) (now : Nat), c.stage = .lockRelease →
      c.lockReleaseTimeout ≠ 0 → c.lockReleaseTimeout < now →
      (Update c now).stage = .roundChanging ∧
      (Update c now).currentRound = c.currentRound + 1) := by
  refine ⟨?_, ?_, ?_, ?_, ?_⟩
  · intro c0 ss st now hst hsort hempty hnodup hmem habs hq hnow
    have hbase : QuorumInv c0 [] now c0 := by
      refine ⟨rfl, rfl, rfl, rfl, hsort, by rw [hempty]; rfl, Or.inl ⟨?_, hst, rfl⟩⟩
      exact Nat.succ_pos _
    have hfold := quorum_fold c0 st now ss [] c0 (by simpa using hnodup) hmem habs hbase
    rw [List.nil_append] at hfold
    obtain ⟨_, _, _, _, _, _, hfin⟩ := hfold
    rcases hfin with ⟨hlt, _, _⟩ | ⟨_, hstg, hti⟩
    · exact absurd hq (Nat.not_le.mpr hlt)
    · refine ⟨hstg, hti, ?_⟩
      rw [hti]
      exact Nat.pos_iff_ne_zero.mp (lt_of_lt_of_le hnow (Nat.le_add_right now _))
  · intro c now hst hlead hne hlt
    unfold Update
    rw [hst]
    dsimp only
    rw [if_pos ⟨hne, hlt⟩, hlead, if_pos rfl]
    exact ⟨rfl, rfl⟩
  · intro c now hst hlead hne hlt
    unfold Update
    rw [hst]
    dsimp only
    rw [if_pos ⟨hne, hlt⟩, hlead, if_neg Bool.false_ne_true]
    exact ⟨rfl, rfl⟩
  · intro c now hst hne hlt
    unfold Update
    rw [hst]
    dsimp only
    rw [if_pos ⟨hne, hlt⟩]
    exact ⟨rfl, rfl⟩
  · intro c now hst hne hlt
    unfold Update
    rw [hst]
    dsimp only
    rw [if_pos ⟨hne, hlt⟩]
    exact ⟨rfl, rfl⟩

/-- Witness for claim C6: a concrete four-participant engine reaches `Lock`
with an armed `lockTimeout` after three distinct `<roundchange>`; expired
`Update` calls then walk the leader `Lock → LockRelease → RoundChanging`
and a non-leader `Lock → Commit`. -/
theorem claim_C6_stage_timeline_witness :
    ((deliverAll (witnessConsensus 0 0 .roundChanging [])
        (([1, 2, 3] : List Identity).map (fun q_ => rcSP 1 0 [4] q_)) 1).stage = .lock ∧
      (deliverAll (witnessConsensus 0 0 .roundChanging [])
        (([1, 2, 3] : List Identity).map (fun q_ => rcSP 1 0 [4] q_)) 1).lockTimeout =
          1 + 2 * (witnessConsensus 0 0 .roundChanging []).latency ∧
      (deliverAll (witnessConsensus 0 0 .roundChanging [])
        (([1, 2, 3] : List Identity).map (fun q_ => rcSP 1 0 [4] q_)) 1).lockTimeout ≠ 0) ∧
    ((Update { witnessConsensus 0 0 .lock [] with lockTimeout := 3 } 10).stage = .lockRelease ∧
      (Update { witnessConsensus 0 0 .lock [] with lockTimeout := 3 } 10).lockReleaseTimeout =
        10 + 2 * { witnessConsensus 0 0 .lock [] with lockTimeout := 3 }.latency) ∧
    ((Update { witnessConsensus 0 0 .lock [] with myIdentity := 1, lockTimeout := 3 } 10).stage =
        .commit ∧
      (Update { witnessConsensus 0 0 .lock [] with myIdentity := 1, lockTimeout := 3 }
          10).commitTimeout =
        10 + 4 * { witnessConsensus 0 0 .lock [] with myIdentity := 1, lockTimeout := 3 }.latency) ∧
    ((Update { witnessConsensus 0 0 .commit [] with commitTimeout := 3 } 10).stage =
        .lockRelease) ∧
    ((Update { witnessConsensus 0 0 .lockRelease [] with lockReleaseTimeout := 3 } 10).stage =
        .roundChanging) :=
  ⟨claim_C6_stage_timeline.1 (witnessConsensus 0 0 .roundChanging []) [1, 2, 3] [4] 1
      rfl List.Pairwise.nil rfl (by decide) (by decide) (by decide) (by decide) (by decide),
   claim_C6_stage_timeline.2.1 { witnessConsensus 0 0 .lock [] with lockTimeout := 3 } 10
      rfl (by decide) (by decide) (by decide),
   claim_C6_stage_timeline.2.2.1
      { witnessConsensus 0 0 .lock [] with myIdentity := 1, lockTimeout := 3 } 10
      rfl (by decide) (by decide) (by decide),
   (claim_C6_stage_timeline.2.2.2.1 { witnessConsensus 0 0 .commit [] with commitTimeout := 3 }
      10 rfl (by decide) (by decide)).1,
   (claim_C6_stage_timeline.2.2.2.2
      { witnessConsensus 0 0 .lockRelease [] with lockReleaseTimeout := 3 } 10
      rfl (by decide) (by decide)).1⟩

/-! Lock carrying across round switches (claim C8). -/

theorem receiveLock_state (c : Consensus) (sp : SignedProto) (now : Nat)
    (henv : envVerdict c sp = none) (htp : sp.message.mtype = .lock)
    (hok : c.verifyLockMessage sp.message sp = none) :
    ReceiveMessage c (some sp) now = (acceptLock c sp.message sp now, none) := by
  unfold ReceiveMessage
  dsimp only
  rw [henv]
  dsimp only
  rw [htp]
  dsimp only
  rw [hok]

theorem acceptLock_eval (c : Consensus) (m : Message) (sp : SignedProto) (now : Nat) :
    (acceptLock c m sp now).locks =
      (if c.locks.any (fun l => c.stateCompare l.1.state m.state = 0) then c.locks
       else c.locks ++ [(m, sp)]) ∧
    (acceptLock c m sp now).stateCompare = c.stateCompare ∧
    (acceptLock c m sp now).currentRound =
      (if c.currentRound < m.round then m.round else c.currentRound) ∧
    (acceptLock c m sp now).currentHeight = c.currentHeight ∧
    (acceptLock c m sp now).participants = c.participants ∧
    (acceptLock c m sp now).fixedLeader = c.fixedLeader := by
  unfold acceptLock
  dsimp only
  by_cases hr : c.currentRound < m.round
  · rw [if_pos hr, if_pos hr]
    exact ⟨rfl, rfl, rfl, rfl, rfl, rfl⟩
  · rw [if_neg hr, if_neg hr]
    exact ⟨rfl, rfl, rfl, rfl, rfl, rfl⟩

/-- Claim C8: accepting a valid `<lock>` at round 10 (switching up from
round 1), then one at round 11 with a different state, then one at round 12
whose state equals the round-11 state, carries the locks into the locks set
deduplicated by state: the set holds exactly 1 entry, then 2, then still 2,
while the current round switches to 10, 11, 12. -/
theorem claim_C8_lock_carry (c0 : Consensus) (m1 m2 m3 : Message)
    (sp1 sp2 sp3 : SignedProto) (t1 t2 t3 : Nat)
    (hlocks0 : c0.locks.length = 0) (hcr0 : c0.currentRound = 1)
    (hr1 : m1.round = 10) (hr2 : m2.round = 11) (hr3 : m3.round = 12)
    (hm1 : sp1.message = m1) (ht1 : m1.mtype = .lock)
    (henv1 : envVerdict c0 sp1 = none)
    (hv1 : c0.verifyLockMessage m1 sp1 = none)
    (hm2 : sp2.message = m2) (ht2 : m2.mtype = .lock)
    (henv2 : envVerdict (ReceiveMessage c0 (some sp1) t1).1 sp2 = none)
    (hv2 : (ReceiveMessage c0 (some sp1) t1).1.verifyLockMessage m2 sp2 = none)
    (hm3 : sp3.message = m3) (ht3 : m3.mtype = .lock)
    (henv3 : envVerdict (ReceiveMessage (ReceiveMessage c0 (some sp1) t1).1 (some sp2) t2).1
        sp3 = none)
    (hv3 : (ReceiveMessage (ReceiveMessage c0 (some sp1) t1).1 (some sp2) t2).1.verifyLockMessage
        m3 sp3 = none)
    (hne12 : c0.stateCompare m1.state m2.state ≠ 0)
    (heq23 : c0.stateCompare m2.state m3.state = 0) :
    (ReceiveMessage c0 (some sp1) t1).1.locks.length = 1 ∧
    (ReceiveMessage c0 (some sp1) t1).1.currentRound = 10 ∧
    (ReceiveMessage (ReceiveMessage c0 (some sp1) t1).1 (some sp2) t2).1.locks.length = 2 ∧
    (ReceiveMessage (ReceiveMessage c0 (some sp1) t1).1 (some sp2) t2).1.currentRound = 11 ∧
    (ReceiveMessage (ReceiveMessage (ReceiveMessage c0 (some sp1) t1).1 (some sp2) t2).1
        (some sp3) t3).1.locks.length = 2 := by
  have hL0 : c0.locks = [] := List.length_eq_zero.mp hlocks0
  have hstep1 : (ReceiveMessage c0 (some sp1) t1).1 = acceptLock c0 m1 sp1 t1 := by
    rw [receiveLock_state c0 sp1 t1 henv1 (by rw [hm1]; exact ht1) (by rw [hm1]; exact hv1),
        hm1]
  obtain ⟨hA1, hC1, hR1, hH1, hP1, hF1⟩ := acceptLock_eval c0 m1 sp1 t1
  have hlocks1 : (ReceiveMessage c0 (some sp1) t1).1.locks = [(m1, sp1)] := by
    rw [hstep1, hA1, hL0]
    simp
  have hcur1 : (ReceiveMessage c0 (some sp1) t1).1.currentRound = 10 := by
    rw [hstep1, hR1, hcr0, hr1]
    norm_num
  have hcmp1 : (ReceiveMessage c0 (some sp1) t1).1.stateCompare = c0.stateCompare := by
    rw [hstep1, hC1]
  have hstep2 : (ReceiveMessage (ReceiveMessage c0 (some sp1) t1).1 (some sp2) t2).1 =
      acceptLock (ReceiveMessage c0 (some sp1) t1).1 m2 sp2 t2 := by
    rw [receiveLock_state _ sp2 t2 henv2 (by rw [hm2]; exact ht2) (by rw [hm2]; exact hv2),
        hm2]
  obtain ⟨hA2, hC2, hR2, hH2, hP2, hF2⟩ :=
    acceptLock_eval (ReceiveMessage c0 (some sp1) t1).1 m2 sp2 t2
  have hlocks2 : (ReceiveMessage (ReceiveMessage c0 (some sp1) t1).1 (some sp2) t2).1.locks =
      [(m1, sp1), (m2, sp2)] := by
    rw [hstep2, hA2, hlocks1, hcmp1]
    simp [hne12]
  have hcur2 : (ReceiveMessage (ReceiveMessage c0 (some sp1) t1).1 (some sp2) t2).1.currentRound =
      11 := by
    rw [hstep2, hR2, hcur1, hr2]
    norm_num
  have hcmp2 : (ReceiveMessage (ReceiveMessage c0 (some sp1) t1).1 (some sp2) t2).1.stateCompare =
      c0.stateCompare := by
    rw [hstep2, hC2, hcmp1]
  have hstep3 : (ReceiveMessage (ReceiveMessage (ReceiveMessage c0 (some sp1) t1).1 (some sp2)
      t2).1 (some sp3) t3).1 =
      acceptLock (ReceiveMessage (ReceiveMessage c0 (some sp1) t1).1 (some sp2) t2).1 m3 sp3
        t3 := by
    rw [receiveLock_state _ sp3 t3 henv3 (by rw [hm3]; exact ht3) (by rw [hm3]; exact hv3),
        hm3]
  obtain ⟨hA3, _, _, _, _, _⟩ :=
    acceptLock_eval (ReceiveMessage (ReceiveMessage c0 (some sp1) t1).1 (some sp2) t2).1 m3 sp3 t3
  have hlocks3 : (ReceiveMessage (ReceiveMessage (ReceiveMessage c0 (some sp1) t1).1 (some sp2)
      t2).1 (some sp3) t3).1.locks = [(m1, sp1), (m2, sp2)] := by
    rw [hstep3, hA3, hlocks2, hcmp2]
    simp [heq23]
  refine ⟨?_, hcur1, ?_, hcur2, ?_⟩
  · rw [hlocks1]
    rfl
  · rw [hlocks2]
    rfl
  · rw [hlocks3]
    rfl

def wLock1 : Message := .mk .lock 1 10 [1] [wRC 1 10 [1] 1, wRC 1 10 [1] 2, wRC 1 10 [1] 3] none

def wLock2 : Message := .mk .lock 1 11 [2] [wRC 1 11 [2] 1, wRC 1 11 [2] 2, wRC 1 11 [2] 3] none

def wLock3 : Message := .mk .lock 1 12 [2] [wRC 1 12 [2] 1, wRC 1 12 [2] 2, wRC 1 12 [2] 3] none

/-- Witness for claim C8: three concrete leader-signed locks at rounds
10, 11, 12 with states `[1]`, `[2]`, `[2]` leave the locks set at sizes
1, 2 and 2, switching the round to 10 and then 11. -/
theorem claim_C8_lock_carry_witness :
    (ReceiveMessage (witnessConsensus 0 1 .roundChanging []) (some (.mk 1 wLock1 0 true))
        1).1.locks.length = 1 ∧
    (ReceiveMessage (witnessConsensus 0 1 .roundChanging []) (some (.mk 1 wLock1 0 true))
        1).1.currentRound = 10 ∧
    (ReceiveMessage (ReceiveMessage (witnessConsensus 0 1 .roundChanging [])
        (some (.mk 1 wLock1 0 true)) 1).1 (some (.mk 1 wLock2 0 true)) 2).1.locks.length = 2 ∧
    (ReceiveMessage (ReceiveMessage (witnessConsensus 0 1 .roundChanging [])
        (some (.mk 1 wLock1 0 true)) 1).1 (some (.mk 1 wLock2 0 true)) 2).1.currentRound = 11 ∧
    (ReceiveMessage (ReceiveMessage (ReceiveMessage (witnessConsensus 0 1 .roundChanging [])
        (some (.mk 1 wLock1 0 true)) 1).1 (some (.mk 1 wLock2 0 true)) 2).1
        (some (.mk 1 wLock3 0 true)) 3).1.locks.length = 2 :=
  claim_C8_lock_carry (witnessConsensus 0 1 .roundChanging []) wLock1 wLock2 wLock3
    (.mk 1 wLock1 0 true) (.mk 1 wLock2 0 true) (.mk 1 wLock3 0 true) 1 2 3
    rfl rfl rfl rfl rfl rfl (by decide) (by decide) (by decide)
    rfl (by decide) (by decide) (by decide)
    rfl (by decide) (by decide) (by decide)
    (by decide) (by decide)

/-! Duplicate `<commit>` deliveries (claim C10). -/

theorem verifyCommit_none_iff (c : Consensus) (m : Message) :
    c.verifyCommitMessage m = none ↔
      (c.stage = .commit ∧ m.height = c.currentHeight + 1 ∧ m.round = c.currentRound ∧
       m.state ≠ [] ∧ stateHash m.state = c.curRound.lockedStateHash) := by
  unfold Consensus.verifyCommitMessage
  split_ifs <;> simp_all

theorem receiveCommit_state (c : Consensus) (sp : SignedProto) (now : Nat)
    (henv : envVerdict c sp = none) (htp : sp.message.mtype = .commit)
    (hok : c.verifyCommitMessage sp.message = none) :
    ReceiveMessage c (some sp) now = (acceptCommit c sp.message sp.signer, none) := by
  unfold ReceiveMessage
  dsimp only
  rw [henv]
  dsimp only
  rw [htp]
  dsimp only
  rw [hok]

theorem insertIfAbsent_of_not_mem {p : Identity} {m : Message}
    {l : List (Identity × Message)} (h : p ∉ l.map Prod.fst) :
    insertIfAbsent p m l = l ++ [(p, m)] := by
  induction l with
  | nil => rfl
  | cons a t ih =>
    have ha : ¬(a.1 = p) := fun he => h (by simp [he])
    have ht : p ∉ t.map Prod.fst := fun he => h (by simp [he])
    simp [insertIfAbsent, ha, ih ht]

theorem insertIfAbsent_of_mem {p : Identity} {m : Message}
    {l : List (Identity × Message)} (h : p ∈ l.map Prod.fst) :
    insertIfAbsent p m l = l := by
  induction l with
  | nil => simp at h
  | cons a t ih =>
    by_cases ha : a.1 = p
    · simp [insertIfAbsent, ha]
    · have ht : p ∈ t.map Prod.fst := by
        simp only [List.map_cons, List.mem_cons] at h
        rcases h with h' | h'
        · exact absurd h'.symm ha
        · exact h'
      simp [insertIfAbsent, ha, ih ht]

theorem mem_keys_insertIfAbsent (p : Identity) (m : Message)
    (l : List (Identity × Message)) : p ∈ (insertIfAbsent p m l).map Prod.fst := by
  induction l with
  | nil => simp [insertIfAbsent]
  | cons a t ih =>
    by_cases ha : a.1 = p
    · simp [insertIfAbsent, ha]
    · simp only [insertIfAbsent, if_neg ha, List.map_cons, List.mem_cons]
      exact Or.inr ih

theorem setRound_mem_round (rs : List ConsensusRound) (r : Nat)
    (f : ConsensusRound → ConsensusRound) (hf : ∀ cr, (f cr).roundNumber = cr.roundNumber) :
    r ∈ (setRound rs r f).map (fun cr => cr.roundNumber) := by
  induction rs with
  | nil => simp [setRound, hf, emptyRound]
  | cons a t ih =>
    simp only [setRound]
    split_ifs with h1 h2
    · simp [hf, h1]
    · simp [hf, emptyRound]
    · simp only [List.map_cons, List.mem_cons]
      exact Or.inr ih

theorem setRound_id (f : ConsensusRound → ConsensusRound) {rs : List ConsensusRound} {r : Nat}
    (hs : BookSorted rs)
    (hmem : r ∈ rs.map (fun cr => cr.roundNumber))
    (hf : ∀ cr, (f cr).roundNumber = cr.roundNumber)
    (hfix : f (findRound rs r) = findRound rs r) : setRound rs r f = rs := by
  induction rs with
  | nil => simp at hmem
  | cons a t ih =>
    rcases List.pairwise_cons.mp hs with ⟨hall, ht⟩
    simp only [setRound]
    split_ifs with h1 h2
    · have hfa : findRound (a :: t) r = a := by
        unfold findRound
        rw [List.find?_cons_of_pos _ (by simp [h1])]
      rw [hfa] at hfix
      rw [hfix]
    · exfalso
      simp only [List.map_cons, List.mem_cons] at hmem
      rcases hmem with h' | h'
      · exact h1 h'
      · rcases List.mem_map.mp h' with ⟨b, hb, hbr⟩
        have := hall b hb
        rw [hbr] at this
        exact absurd (lt_trans h2 this) (lt_irrefl r)
    · have hfa : findRound (a :: t) r = findRound t r := by
        unfold findRound
        rw [List.find?_cons_of_neg _ (by simp; exact fun he => h1 he.symm)]
      rw [hfa] at hfix
      have hmem' : r ∈ t.map (fun cr => cr.roundNumber) := by
        simp only [List.map_cons, List.mem_cons] at hmem
        rcases hmem with h' | h'
        · exact absurd h' h1
        · exact h'
      rw [ih ht hmem' hfix]

theorem acceptCommit_noquorum (c : Consensus) (m : Message) (p : Identity)
    (hq : (findRound (commitBook c m p) m.round).commits.length < c.quorum) :
    acceptCommit c m p = { c with rounds := commitBook c m p } := by
  unfold acceptCommit
  dsimp only
  rw [if_neg (Nat.not_le.mpr hq)]

theorem acceptCommit_id (c1 : Consensus) (m : Message) (p : Identity)
    (hsort1 : BookSorted c1.rounds)
    (hmem : m.round ∈ c1.rounds.map (fun cr => cr.roundNumber))
    (hpmem : p ∈ (findRound c1.rounds m.round).commits.map Prod.fst)
    (hq : (findRound c1.rounds m.round).commits.length < c1.quorum) :
    acceptCommit c1 m p = c1 := by
  have hbook : commitBook c1 m p = c1.rounds := by
    unfold commitBook
    refine setRound_id (fun cr => { cr with commits := insertIfAbsent p m cr.commits })
      hsort1 hmem (fun cr => rfl) ?_
    dsimp only
    rw [insertIfAbsent_of_mem hpmem]
  unfold acceptCommit
  dsimp only
  rw [show commitBook c1 m p = c1.rounds from hbook, if_neg (Nat.not_le.mpr hq)]

/-- Claim C10: delivering the same valid `<commit>` repeatedly through
`ReceiveMessage` (below commit quorum) succeeds on every call, duplicates
included, the engine is fixed after the first delivery, and the round book
retains exactly one commit entry for that signer. -/
theorem claim_C10_duplicate_commits (c : Consensus) (sp : SignedProto) (now : Nat)
    (henv : envVerdict c sp = none) (htp : sp.message.mtype = .commit)
    (hok : c.verifyCommitMessage sp.message = none)
    (hsort : BookSorted c.rounds)
    (hfresh : sp.signer ∉ (findRound c.rounds sp.message.round).commits.map Prod.fst)
    (hq : (findRound (commitBook c sp.message sp.signer) sp.message.round).commits.length <
      c.quorum) :
    (∀ n, (receiveRepeat sp now n c).2 = true) ∧
    (∀ n, 1 ≤ n → (receiveRepeat sp now n c).1 =
      { c with rounds := commitBook c sp.message sp.signer }) ∧
    ((findRound { c with rounds := commitBook c sp.message sp.signer }.rounds
        sp.message.round).commits.filter (fun e => e.1 = sp.signer)).length = 1 := by
  obtain ⟨hst, hh, hr, hsne, hhash⟩ := (verifyCommit_none_iff c sp.message).mp hok
  set m := sp.message with hmdef
  set p := sp.signer with hpdef
  set c1 : Consensus := { c with rounds := commitBook c m p } with hc1
  have hfr : findRound c1.rounds m.round =
      { findRound c.rounds m.round with
          commits := insertIfAbsent p m (findRound c.rounds m.round).commits } := by
    rw [hc1]
    dsimp only
    unfold commitBook
    rw [findRound_setRound
        (fun cr => { cr with commits := insertIfAbsent p m cr.commits })
        (fun cr => rfl) hsort]
  have hcomm1 : (findRound c1.rounds m.round).commits =
      (findRound c.rounds m.round).commits ++ [(p, m)] := by
    rw [hfr]
    dsimp only
    rw [insertIfAbsent_of_not_mem hfresh]
  have hstep1 : ReceiveMessage c (some sp) now = (c1, none) := by
    rw [receiveCommit_state c sp now henv htp hok, acceptCommit_noquorum c m p hq]
  have hsort1 : BookSorted c1.rounds := by
    rw [hc1]
    exact setRound_sorted _ _ _ (fun cr => rfl) hsort
  have henv1 : envVerdict c1 sp = none := henv
  have hok1 : c1.verifyCommitMessage m = none := by
    rw [verifyCommit_none_iff]
    refine ⟨hst, hh, hr, hsne, ?_⟩
    unfold Consensus.curRound
    rw [show c1.currentRound = c.currentRound from rfl, ← hr, hfr]
    dsimp only
    rw [hhash]
    unfold Consensus.curRound
    rw [hr]
  have hmem1 : m.round ∈ c1.rounds.map (fun cr => cr.roundNumber) := by
    rw [hc1]
    exact setRound_mem_round _ _ _ (fun cr => rfl)
  have hpmem1 : p ∈ (findRound c1.rounds m.round).commits.map Prod.fst := by
    rw [hfr]
    dsimp only
    exact mem_keys_insertIfAbsent p m _
  have hq1 : (findRound c1.rounds m.round).commits.length < c1.quorum := hq
  have hidem : ReceiveMessage c1 (some sp) now = (c1, none) := by
    rw [receiveCommit_state c1 sp now henv1 htp hok1,
        acceptCommit_id c1 m p hsort1 hmem1 hpmem1 hq1]
  have hrep1 : ∀ n, receiveRepeat sp now n c1 = (c1, true) := by
    intro n
    induction n with
    | zero => rfl
    | succ k ih =>
      unfold receiveRepeat
      rw [hidem]
      dsimp only
      rw [ih]
      rfl
  refine ⟨?_, ?_, ?_⟩
  · intro n
    cases n with
    | zero => rfl
    | succ k =>
      unfold receiveRepeat
      rw [hstep1]
      dsimp only
      rw [hrep1 k]
      rfl
  · intro n hn
    cases n with
    | zero => exact absurd hn (by simp)
    | succ k =>
      unfold receiveRepeat
      rw [hstep1]
      dsimp only
      rw [hrep1 k]
  · rw [show ({ c with rounds := commitBook c m p } : Consensus).rounds = c1.rounds from rfl,
        hcomm1, List.filter_append, filter_signer_eq_nil hfresh]
    simp

/-- Witness for claim C10: the same valid `<commit>` from signer 1 delivered
five times in a row always succeeds and leaves exactly one commit entry for
that signer. -/
theorem claim_C10_duplicate_commits_witness :
    (receiveRepeat (wCM 10 10 [7] 1) 1 5 (witnessConsensus 9 10 .commit [wRound10])).2 = true ∧
    (receiveRepeat (wCM 10 10 [7] 1) 1 5 (witnessConsensus 9 10 .commit [wRound10])).1 =
      { witnessConsensus 9 10 .commit [wRound10] with
          rounds := commitBook (witnessConsensus 9 10 .commit [wRound10])
            (wCM 10 10 [7] 1).message (wCM 10 10 [7] 1).signer } ∧
    ((findRound { witnessConsensus 9 10 .commit [wRound10] with
        rounds := commitBook (witnessConsensus 9 10 .commit [wRound10])
          (wCM 10 10 [7] 1).message (wCM 10 10 [7] 1).signer }.rounds
        (wCM 10 10 [7] 1).message.round).commits.filter
          (fun e => e.1 = (wCM 10 10 [7] 1).signer)).length = 1 :=
  ⟨(claim_C10_duplicate_commits (witnessConsensus 9 10 .commit [wRound10]) (wCM 10 10 [7] 1) 1
      (by decide) (by decide) (by decide) (List.Pairwise.cons (by simp) List.Pairwise.nil) (by decide) (by decide)).1 5,
   (claim_C10_duplicate_commits (witnessConsensus 9 10 .commit [wRound10]) (wCM 10 10 [7] 1) 1
      (by decide) (by decide) (by decide) (List.Pairwise.cons (by simp) List.Pairwise.nil) (by decide) (by decide)).2.1 5
      (by decide),
   (claim_C10_duplicate_commits (witnessConsensus 9 10 .commit [wRound10]) (wCM 10 10 [7] 1) 1
      (by decide) (by decide) (by decide) (List.Pairwise.cons (by simp) List.Pairwise.nil) (by decide) (by decide)).2.2⟩

end BDLS
